import Mathlib

/-!
# goragagent: the query resolution engine of `cmd/query.go`

A shallow embedding of `FindRelevantInfo`, `addInteraction`, `getMemoryInfo`,
`formatRecordInfo`, `getAvailableLocations`, `GenerateAnswer`, `validateFilePath`,
`validateRecord` and `LoadData`.

Conventions of the embedding:

* Go strings are Lean `String`s (valid UTF-8 text); the functions of the Go
  `strings` package are written out on the list of runes.
* `strings.ToLower` maps every rune through `unicode.ToLower`.  The Unicode case
  table is not part of the repository, so the rune mapping is the parameter
  `lower : Char → Char` of every definition that lower-cases; `asciiLower` is its
  value on ASCII text and is used for concrete evaluations.
* The package variables `lastQuery`, `lastLocation`, `interactions` and
  `memorySize` are the fields of `Session`, passed in and returned explicitly.
* `time.Now()` is the argument `now`.
* Ranging over a Go map visits the keys in an unspecified order; the order is
  chosen by the argument `seed` through `mapOrder`, which can produce every
  permutation of the keys.
* `os.Open` and `csv.Reader.ReadAll` are the argument `files` of `LoadData`; the
  functions of `path/filepath` are written out for a Unix system.
-/

namespace GoRagAgent

/-! ## Runes and the `strings` package -/

/-- Go `unicode.IsSpace`: the Unicode White_Space code points. -/
def isSpace (c : Char) : Bool :=
  let n := c.toNat
  n == 0x09 || n == 0x0A || n == 0x0B || n == 0x0C || n == 0x0D || n == 0x20 ||
  n == 0x85 || n == 0xA0 || n == 0x1680 || (0x2000 ≤ n && n ≤ 0x200A) ||
  n == 0x2028 || n == 0x2029 || n == 0x202F || n == 0x205F || n == 0x3000

/-- Go `unicode.ToLower` on ASCII runes (`A`..`Z` to `a`..`z`, every other ASCII rune fixed). -/
def asciiLower (c : Char) : Char :=
  if 65 ≤ c.toNat ∧ c.toNat ≤ 90 then Char.ofNat (c.toNat + 32) else c

/-- Go `strings.ToLower`: every rune mapped through the rune mapping `lower`. -/
def ToLower (lower : Char → Char) (s : String) : String :=
  ⟨s.data.map lower⟩

/-- Prefix test on rune lists. -/
def hasPrefixL : List Char → List Char → Bool
  | _, [] => true
  | [], _ :: _ => false
  | c :: s, d :: p => c == d && hasPrefixL s p

/-- Substring test on rune lists: `sub` starts at some position of `s`. -/
def containsL : List Char → List Char → Bool
  | [], sub => hasPrefixL [] sub
  | c :: s, sub => hasPrefixL (c :: s) sub || containsL s sub

/-- Go `strings.Contains`. -/
def Contains (s substr : String) : Bool :=
  containsL s.data substr.data

/-- Go `strings.HasPrefix`. -/
def HasPrefix (s pre : String) : Bool :=
  hasPrefixL s.data pre.data

/-- Go `strings.TrimPrefix`: `s` without the leading `pre`, or `s` itself. -/
def TrimPrefix (s pre : String) : String :=
  if HasPrefix s pre then ⟨s.data.drop pre.data.length⟩ else s

/-- Go `strings.TrimSpace`: leading and trailing white space removed. -/
def TrimSpace (s : String) : String :=
  ⟨((s.data.dropWhile isSpace).reverse.dropWhile isSpace).reverse⟩

/-- Scanner of `strings.Fields`: `cur` is the token being read. -/
def fieldsL : List Char → List Char → List (List Char)
  | [], cur => if cur.isEmpty then [] else [cur]
  | c :: s, cur =>
    if isSpace c then
      if cur.isEmpty then fieldsL s [] else cur :: fieldsL s []
    else fieldsL s (cur ++ [c])

/-- Go `strings.Fields`: the maximal runs of non-space runes, in order. -/
def Fields (s : String) : List String :=
  (fieldsL s.data []).map String.mk

/-- Go `strings.Join`. -/
def Join : List String → String → String
  | [], _ => ""
  | [x], _ => x
  | x :: y :: rest, sep => x ++ sep ++ Join (y :: rest) sep

/-! ## Iteration over a Go map -/

/-- Keys of a map built by inserting `keys` one after the other: each key once. -/
def mapKeys : List String → List String
  | [] => []
  | k :: ks => k :: (mapKeys ks).filter (fun x => x != k)

/-- One iteration order of a key set: `seed` picks, step by step, which of the
remaining keys comes next; an exhausted seed leaves the rest as it stands. -/
def mapOrder : List Nat → List String → List String
  | [], keys => keys
  | n :: seed, keys =>
    match keys.drop (n % keys.length) ++ keys.take (n % keys.length) with
    | [] => []
    | k :: rest => k :: mapOrder seed rest

/-! ## Data model (`query.go`, lines 17-42) -/

/-- Go `Record`; the map `Values` is an association list read by first binding. -/
structure Record where
  Location : String
  DataType : String
  Values : List (String × String)
  Source : String
  deriving DecidableEq, Repr

/-- Go `Interaction`; the time stamp is a clock reading. -/
structure Interaction where
  Location : String
  Question : String
  Timestamp : Nat
  deriving DecidableEq, Repr

/-- The package variables `lastQuery`, `lastLocation`, `interactions`, `memorySize`. -/
structure Session where
  lastQuery : String
  lastLocation : String
  interactions : List Interaction
  memorySize : Nat
  deriving DecidableEq, Repr

/-- The state at process start for a given capacity (`memorySize = 5` in the source). -/
def initSession (memorySize : Nat) : Session :=
  { lastQuery := "", lastLocation := "", interactions := [], memorySize := memorySize }

/-- Go map index `m[k]`: the bound value, or the empty string. -/
def valueOf (values : List (String × String)) (key : String) : String :=
  (values.lookup key).getD ""

/-- Bindings of a map value, one per key (the first binding of the list). -/
def bindings : List (String × String) → List (String × String)
  | [] => []
  | kv :: rest => kv :: (bindings rest).filter (fun x => x.1 != kv.1)

/-- Insertion into a list of bindings sorted by key. -/
def insertByKey (kv : String × String) : List (String × String) → List (String × String)
  | [] => [kv]
  | x :: rest => if kv.1 < x.1 then kv :: x :: rest else x :: insertByKey kv rest

/-- Go `%v` of a `map[string]string`: `map[k1:v1 k2:v2]`, keys in increasing order. -/
def formatMap (values : List (String × String)) : String :=
  "map[" ++
    Join (((bindings values).foldr insertByKey []).map (fun kv => kv.1 ++ ":" ++ kv.2)) " " ++ "]"

/-! ## `formatRecordInfo` (lines 305-331) -/

/-- Go `formatRecordInfo`. -/
def formatRecordInfo (record : Record) : String :=
  if record.DataType = "tax" then
    "According to " ++ record.Source ++ ", the tax rate in " ++ record.Location ++ " is " ++
      valueOf record.Values "tax_rate"
  else if record.DataType = "tourist" then
    "Tourist Information for " ++ record.Location ++ " (Source: " ++ record.Source ++ "):\n" ++
      "  - Main Attractions: " ++ valueOf record.Values "attractions" ++ "\n" ++
      "  - Best Time to Visit: " ++ valueOf record.Values "best_time"
  else if record.DataType = "cost" then
    "Travel Costs for " ++ record.Location ++ " (Source: " ++ record.Source ++ "):\n" ++
      "  - Average Daily Cost: $" ++ valueOf record.Values "daily_cost" ++ "\n" ++
      "  - Hotel: $" ++ valueOf record.Values "hotel_avg" ++ " per night\n" ++
      "  - Food: $" ++ valueOf record.Values "food_avg" ++ " per day"
  else
    "Information about " ++ record.Location ++ ": " ++ formatMap record.Values ++
      " (Source: " ++ record.Source ++ ")"

/-! ## `getAvailableLocations` (lines 333-344) -/

/-- Go `getAvailableLocations`: the distinct locations, in map iteration order, joined by `", "`. -/
def getAvailableLocations (seed : List Nat) (records : List Record) : String :=
  Join (mapOrder seed (mapKeys (records.map (fun r => r.Location)))) ", "

/-! ## Session memory (lines 260-303) -/

/-- Go `addInteraction`: insert at the front, keep the first `memorySize` entries. -/
def addInteraction (now : Nat) (st : Session) (location question : String) : Session :=
  let interaction : Interaction := { Location := location, Question := question, Timestamp := now }
  let interactions := interaction :: st.interactions
  if interactions.length > st.memorySize then
    { st with interactions := interactions.take st.memorySize }
  else
    { st with interactions := interactions }

/-- Go `getMemoryInfo`. -/
def getMemoryInfo (seed : List Nat) (st : Session) : String :=
  match st.interactions with
  | [] => "You haven't asked about any locations yet."
  | newest :: older =>
    "Recent locations you've asked about:\n" ++
    "\nUnique locations discussed:\n" ++
    String.join ((mapOrder seed (mapKeys ((newest :: older).map (fun i => i.Location)))).map
      (fun location => "- " ++ location ++ "\n")) ++
    "\nMost recent query was about: " ++ newest.Location ++ "\n"

/-! ## `FindRelevantInfo` (lines 169-258) -/

/-- Lines 177-179: the test for memory-related queries. -/
def isMemoryQuery (query : String) : Bool :=
  Contains query "previous" || Contains query "history" ||
  Contains query "locations" || Contains query "remember" ||
  (Contains query "which" && Contains query "ask")

/-- Lines 184-186: the test for follow-up questions about costs, attractions and so on. -/
def isTopicQuery (query : String) : Bool :=
  Contains query "cost" || Contains query "price" ||
  Contains query "attractions" || Contains query "visit" ||
  Contains query "tax"

/-- Lines 183-203: the three rewriting steps applied to the lower-cased, trimmed query. -/
def rewriteQuery (lower : Char → Char) (lastLocation query : String) : String :=
  let query :=
    if isTopicQuery query then
      if lastLocation != "" then lastLocation ++ " " ++ query else query
    else query
  let query :=
    if HasPrefix query "what about" || HasPrefix query "how about" then
      TrimSpace (TrimPrefix (TrimPrefix query "what about") "how about")
    else query
  if (Fields query).length ≤ 2 && lastLocation != "" &&
      !Contains (ToLower lower query) (ToLower lower lastLocation) then
    lastLocation ++ " " ++ query
  else query

/-- Lines 212-217: the inner loop over the query words for one record. -/
def matchWords (record : Record) (location : String) : List String → String
  | [] => ""
  | word :: words =>
    if Contains location word then record.Location else matchWords record location words

/-- Lines 209-221: the first pass, the loop over the records. -/
def findLocation (lower : Char → Char) (queryWords : List String) : List Record → String
  | [] => ""
  | record :: records =>
    let foundLocation := matchWords record (ToLower lower record.Location) queryWords
    if foundLocation != "" then foundLocation else findLocation lower queryWords records

/-- Lines 225-231: the second pass; `seenTypes` holds the categories already rendered. -/
def gatherInfo (foundLocation : String) : List Record → List String → List String
  | [], _ => []
  | record :: records, seenTypes =>
    if record.Location = foundLocation ∧ ¬ record.DataType ∈ seenTypes then
      formatRecordInfo record :: gatherInfo foundLocation records (record.DataType :: seenTypes)
    else gatherInfo foundLocation records seenTypes

/-- Lines 236-239: the follow-up prompt. -/
def followUpPrompt (foundLocation : String) : String :=
  "\nWould you like to know more about " ++ foundLocation ++ "? You can ask about:\n" ++
  "- Tourist attractions and best time to visit\n" ++
  "- Average daily costs and expenses\n" ++
  "- Tax rates and financial information"

/-- Lines 248-251: the guidance returned when nothing is found and a location is remembered. -/
def assumeMessage (lastLocation : String) : String :=
  "I assume you're asking about " ++ lastLocation ++
  ", but I don't have that specific information. Try asking about:\n" ++
  "- Tourist attractions and best time to visit\n" ++
  "- Average daily costs and expenses\n" ++
  "- Tax rates and financial information"

/-- Go `FindRelevantInfo`: the main response, the follow-up and the session afterwards. -/
def FindRelevantInfo (lower : Char → Char) (seed : List Nat) (now : Nat) (st : Session)
    (query : String) (records : List Record) : (String × String) × Session :=
  let query := ToLower lower (TrimSpace query)
  if isMemoryQuery query then ((getMemoryInfo seed st, ""), st)
  else
    let query := rewriteQuery lower st.lastLocation query
    let queryWords := Fields query
    let foundLocation := findLocation lower queryWords records
    let found : (List String × String) × Session :=
      if foundLocation != "" then
        let mainResponse := gatherInfo foundLocation records []
        let changed : String × Session :=
          if foundLocation != st.lastLocation then
            (followUpPrompt foundLocation, { st with lastLocation := foundLocation })
          else ("", st)
        ((mainResponse, changed.1), addInteraction now changed.2 foundLocation query)
      else (([], ""), st)
    if found.1.1.length = 0 then
      if found.2.lastLocation != "" then ((assumeMessage found.2.lastLocation, ""), found.2)
      else
        (("No information found. Available locations: " ++ getAvailableLocations seed records, ""),
          found.2)
    else ((Join found.1.1 "\n", found.1.2), found.2)

/-! ## `GenerateAnswer` (lines 346-388) -/

/-- The part of `openai.ChatCompletionRequest` that the call fills in. -/
structure ChatCompletionRequest where
  Model : String
  Role : String
  Content : String
  deriving DecidableEq, Repr

/-- The part of `openai.ChatCompletionResponse` that is read: `Choices[i].Message.Content`. -/
structure ChatCompletionResponse where
  Choices : List String
  deriving DecidableEq, Repr

/-- A non-nil `*openai.Client`: `CreateChatCompletion` answers a request with an
error or with a response. -/
abbrev Client := ChatCompletionRequest → Except String ChatCompletionResponse

/-- Lines 355-361: the prompt. -/
def buildPrompt (lastQuery mainInfo question : String) : String :=
  if lastQuery != "" then
    "Previous question: " ++ lastQuery ++ "\nCurrent question: " ++ question ++
      "\nInformation: " ++ mainInfo
  else "Question: " ++ question ++ "\nInformation: " ++ mainInfo

/-- Go `GenerateAnswer`.  `Except.ok (answer, err)` is a normal return with the Go
error value `err` (`none` is `nil`); `Except.error` is a run-time panic. -/
def GenerateAnswer (lastQuery : String) (client : Option Client)
    (mainInfo followUp question : String) : Except String (String × Option String) :=
  match client with
  | none => if followUp != "" then .ok (mainInfo ++ followUp, none) else .ok (mainInfo, none)
  | some client =>
    let prompt := buildPrompt lastQuery mainInfo question
    match client { Model := "gpt-3.5-turbo", Role := "user", Content := prompt } with
    | .error _ => if followUp != "" then .ok (mainInfo ++ followUp, none) else .ok (mainInfo, none)
    | .ok resp =>
      match resp.Choices with
      | [] => .error "runtime error: index out of range [0] with length 0"
      | choice :: _ =>
        let answer := choice
        if followUp != "" then .ok (answer ++ followUp, none) else .ok (answer, none)

/-! ## Concrete data of the test-suite -/

/-- The store of `TestFindRelevantInfo` (`search_test.go`, lines 15-40). -/
def testStore : List Record :=
  [ { Location := "Travis County", DataType := "tax", Values := [("tax_rate", "1.9%")],
      Source := "tax_policies_2023.pdf" },
    { Location := "Williamson County", DataType := "tax", Values := [("tax_rate", "2.1%")],
      Source := "tax_records_2023.csv" },
    { Location := "Travis Heights", DataType := "tax", Values := [("tax_rate", "1.8%")],
      Source := "local_rates.pdf" } ]

/-! ## Sequences of calls -/

/-- One call of `FindRelevantInfo` with what the environment supplies to it:
the map iteration order, the clock reading, the query and the store. -/
structure Call where
  seed : List Nat
  now : Nat
  query : String
  records : List Record
  deriving Repr

/-- The session after a sequence of `FindRelevantInfo` calls. -/
def runCalls (lower : Char → Char) (st : Session) : List Call → Session
  | [] => st
  | c :: calls =>
    runCalls lower (FindRelevantInfo lower c.seed c.now st c.query c.records).2 calls

/-- The location that a call resolves and the question it is resolved from
(lines 171-221), or `none` for a memory-related query or a miss. -/
def resolution (lower : Char → Char) (st : Session) (query : String)
    (records : List Record) : Option (String × String) :=
  let query := ToLower lower (TrimSpace query)
  if isMemoryQuery query then none
  else
    let query := rewriteQuery lower st.lastLocation query
    let foundLocation := findLocation lower (Fields query) records
    if foundLocation != "" then some (foundLocation, query) else none

/-- The interactions recorded by a sequence of calls, oldest first: one for
every call that resolves a location. -/
def recorded (lower : Char → Char) (st : Session) : List Call → List Interaction
  | [] => []
  | c :: calls =>
    (match resolution lower st c.query c.records with
      | some (location, question) =>
        [{ Location := location, Question := question, Timestamp := c.now }]
      | none => []) ++
    recorded lower (FindRelevantInfo lower c.seed c.now st c.query c.records).2 calls

/-- Three calls over the test store, each of which resolves a location. -/
def overflowCalls : List Call :=
  [ { seed := [], now := 1, query := "Travis County", records := testStore },
    { seed := [], now := 2, query := "what about Williamson", records := testStore },
    { seed := [], now := 3, query := "Heights", records := testStore } ]

/-- A client whose call fails, as with a network, authentication or quota error. -/
def failingClient : Client :=
  fun _ => .error "status code: 401"

/-- A client whose call succeeds with a response that has no choices. -/
def emptyChoicesClient : Client :=
  fun _ => .ok { Choices := [] }

/-- The request sent by `GenerateAnswer` (lines 365-373). -/
def chatRequest (lastQuery mainInfo question : String) : ChatCompletionRequest :=
  { Model := "gpt-3.5-turbo", Role := "user", Content := buildPrompt lastQuery mainInfo question }

/-- The sub-tests of `TestFindRelevantInfo` that run before "No Match"
(`search_test.go`, lines 49-63). -/
def testCallsBeforeNoMatch : List Call :=
  [ { seed := [], now := 0, query := "Travis County", records := testStore },
    { seed := [], now := 0, query := "Travis", records := testStore },
    { seed := [], now := 0, query := "TRAVIS", records := testStore } ]

/-! ## Notions used to state the properties -/

/-- Lines 171-203: the query as the first pass sees it, that is lower-cased,
trimmed and rewritten with the remembered location. -/
def rewrittenQuery (lower : Char → Char) (st : Session) (query : String) : String :=
  rewriteQuery lower st.lastLocation (ToLower lower (TrimSpace query))

/-- The lower-cased location of `r` contains one of the `words` as a substring. -/
def MatchesToken (lower : Char → Char) (words : List String) (r : Record) : Prop :=
  ∃ w ∈ words, w.data <:+: (ToLower lower r.Location).data

/-- The records rendered by the second pass (lines 225-231), as `gatherInfo` selects them. -/
def gatherRecords (foundLocation : String) : List Record → List String → List Record
  | [], _ => []
  | record :: records, seenTypes =>
    if record.Location = foundLocation ∧ ¬ record.DataType ∈ seenTypes then
      record :: gatherRecords foundLocation records (record.DataType :: seenTypes)
    else gatherRecords foundLocation records seenTypes

/-- The test store with "Travis Heights" moved in front of "Travis County". -/
def heightsFirstStore : List Record :=
  [ { Location := "Travis Heights", DataType := "tax", Values := [("tax_rate", "1.8%")],
      Source := "local_rates.pdf" },
    { Location := "Travis County", DataType := "tax", Values := [("tax_rate", "1.9%")],
      Source := "tax_policies_2023.pdf" },
    { Location := "Williamson County", DataType := "tax", Values := [("tax_rate", "2.1%")],
      Source := "tax_records_2023.csv" } ]

/-- A store with two tax rows for one location, in between a cost row for it
and a row for another location. -/
def duplicateStore : List Record :=
  [ { Location := "Texas", DataType := "tax", Values := [("tax_rate", "6.25%")],
      Source := "state_taxes.csv" },
    { Location := "Texas", DataType := "cost", Values := [("daily_cost", "150"),
      ("hotel_avg", "100"), ("food_avg", "40")], Source := "travel_costs.csv" },
    { Location := "Nevada", DataType := "tax", Values := [("tax_rate", "6.85%")],
      Source := "state_taxes.csv" },
    { Location := "Texas", DataType := "tax", Values := [("tax_rate", "8.25%")],
      Source := "local_taxes.csv" } ]

/-- The sentence rendered for a tax record (lines 309-310). -/
def taxSentence (r : Record) : String :=
  "According to " ++ r.Source ++ ", the tax rate in " ++ r.Location ++ " is " ++
    valueOf r.Values "tax_rate"

/-- What is assumed of the rune mapping `unicode.ToLower` where a literal of the
source meets lower-cased text: on ASCII runes it is `asciiLower`, and it maps
white space to white space and nothing else to white space. -/
structure CaseMapping (lower : Char → Char) : Prop where
  ascii : ∀ c : Char, c.toNat < 128 → lower c = asciiLower c
  space : ∀ c : Char, isSpace (lower c) = isSpace c

/-- A store with one tax row per state. -/
def stateStore : List Record :=
  [ { Location := "California", DataType := "tax", Values := [("tax_rate", "7.25%")],
      Source := "state_taxes.csv" },
    { Location := "Texas", DataType := "tax", Values := [("tax_rate", "6.25%")],
      Source := "state_taxes.csv" },
    { Location := "New York", DataType := "tax", Values := [("tax_rate", "4%")],
      Source := "state_taxes.csv" } ]

/-- The session after "California" has been resolved over `stateStore` at process start. -/
def afterCalifornia : Session :=
  (FindRelevantInfo asciiLower [] 1 (initSession 5) "California" stateStore).2

/-- The session after "Travis County" has been resolved over the test store at process start. -/
def afterTravisCounty : Session :=
  (FindRelevantInfo asciiLower [] 1 (initSession 5) "Travis County" testStore).2

/-! ## `path/filepath` on a Unix system -/

/-- Go `filepath.IsAbs`: the path begins with a slash. -/
def IsAbs (path : String) : Bool :=
  HasPrefix path "/"

/-- Scan of `filepath.Ext` from the end of the path; `acc` is the text already passed. -/
def extL : List Char → List Char → List Char
  | [], _ => []
  | c :: rest, acc =>
    if c = '/' then [] else if c = '.' then '.' :: acc else extL rest (c :: acc)

/-- Go `filepath.Ext`: the suffix from the last dot of the last path element, or nothing. -/
def Ext (path : String) : String :=
  ⟨extL path.data.reverse []⟩

/-- Go `filepath.Base`: the last element of the path, trailing slashes removed. -/
def Base (path : String) : String :=
  if path = "" then "."
  else
    let last := ((path.data.reverse.dropWhile (fun c => c == '/')).takeWhile
      (fun c => c != '/')).reverse
    if last = [] then "/" else ⟨last⟩

/-- The slash-separated elements of a path; `cur` is the element being read. -/
def splitPath : List Char → List Char → List (List Char)
  | [], cur => [cur]
  | c :: s, cur => if c = '/' then cur :: splitPath s [] else splitPath s (cur ++ [c])

/-- The element loop of `filepath.Clean`; `out` holds the kept elements, last one first. -/
def cleanParts (rooted : Bool) : List (List Char) → List (List Char) → List (List Char)
  | [], out => out
  | part :: parts, out =>
    if part = [] ∨ part = ['.'] then cleanParts rooted parts out
    else if part = ['.', '.'] then
      match out with
      | top :: rest =>
        if top = ['.', '.'] then cleanParts rooted parts (part :: out)
        else cleanParts rooted parts rest
      | [] => if rooted then cleanParts rooted parts [] else cleanParts rooted parts [part]
    else cleanParts rooted parts (part :: out)

/-- Go `filepath.Clean`: repeated slashes and `.` elements dropped, every inner
`..` dropped together with the element before it, `..` at the start of a rooted
path dropped; the empty result is `"."`. -/
def Clean (path : String) : String :=
  if path = "" then "."
  else
    let rooted := HasPrefix path "/"
    let out := (cleanParts rooted (splitPath path.data []) []).reverse.map String.mk
    if rooted then "/" ++ Join out "/"
    else if out = [] then "." else Join out "/"

/-! ## Validation and loading (lines 56-167) -/

/-- Go `validateFilePath`; `none` is the nil error, `some msg` an error with that text. -/
def validateFilePath (path : String) : Option String :=
  if IsAbs path then some "must use relative path to data directory"
  else if Ext path ≠ ".csv" then some "invalid file extension: must be .csv"
  else if Contains (Clean path) ".." then some "invalid path: directory traversal not allowed"
  else if Contains path "$" || Contains path "`" then some "invalid character in field"
  else if HasPrefix (Base path) "." then some "invalid filename: hidden files not allowed"
  else if Contains path "://" then some "invalid path: URLs not allowed"
  else none

/-- Lines 145-163: the checks on one field, in the order of the source. -/
def validateField (field : String) : Option String :=
  if Contains field "\x00" then some "invalid character in field"
  else if Contains field "$" || Contains field "`" then some "invalid character in field"
  else if Contains field "../" || Contains field "..\\" then some "invalid character in path"
  else if field.utf8ByteSize > 1024 then some "field too long: maximum length is 1KB"
  else none

/-- Go `validateRecord`: the error of the first field that fails a check, or nil. -/
def validateRecord : List String → Option String
  | [] => none
  | field :: record =>
    match validateField field with
    | some err => some err
    | none => validateRecord record

/-- Lines 87-92: the map of the row, filled column by column; a later binding
of a header is placed before an earlier one, so that it is the one read. -/
def buildValues : List String → List String → List (String × String) → List (String × String)
  | [], _, values => values
  | _ :: _, [], values => values
  | header :: headers, field :: record, values =>
    if header ≠ "location" ∧ header ≠ "source" then
      buildValues headers record ((header, field) :: values)
    else buildValues headers record values

/-- What a call of `LoadData` does: it returns records, returns an error, or panics. -/
inductive LoadResult where
  | records (result : List Record)
  | error (msg : String)
  | panic (msg : String)
  deriving DecidableEq, Repr

/-- Lines 81-102: the loop over the data rows; `i` is the index of the first row
of the list and `result` the records appended so far. -/
def loadRows (dataType : String) (headers : List String) :
    List (List String) → Nat → List Record → LoadResult
  | [], _, result => .records result
  | record :: rows, i, result =>
    match validateRecord record with
    | some err => .error ("invalid data at row " ++ toString (i + 1) ++ ": " ++ err)
    | none =>
      match record.head?, record.getLast? with
      | some first, some last =>
        loadRows dataType headers rows (i + 1)
          (result ++ [{ Location := first, DataType := dataType,
                        Values := buildValues headers record [], Source := last }])
      | _, _ => .panic "runtime error: index out of range [0] with length 0"

/-- What `os.Open` followed by `csv.NewReader(file).ReadAll()` gives for a path:
an error of `os.Open`, an error of the reader, or the parsed rows. -/
inductive Source where
  | openError (msg : String)
  | readError (msg : String)
  | rows (records : List (List String))
  deriving DecidableEq, Repr

/-- Go `LoadData`; `files` stands for the file system and the CSV reader. -/
def LoadData (files : String → Source) (filePath dataType : String) : LoadResult :=
  match validateFilePath filePath with
  | some err => .error err
  | none =>
    match files filePath with
    | .openError err => .error ("error opening file: " ++ err)
    | .readError err => .error ("error reading CSV: " ++ err)
    | .rows records =>
      if records.length < 2 then .error "CSV file is empty or missing data rows"
      else
        match records with
        | [] => .error "CSV file is empty or missing data rows"
        | headers :: rows => loadRows dataType headers rows 1 []

/-- Go `unicode.IsControl`: the C0 and C1 control characters. -/
def isControl (c : Char) : Bool :=
  c.toNat < 32 || (127 ≤ c.toNat && c.toNat < 160)

/-- The text contains "previous", "history", "locations" or "remember", or
contains both "which" and "ask". -/
def IsRecallText (q : String) : Prop :=
  "previous".data <:+: q.data ∨ "history".data <:+: q.data ∨ "locations".data <:+: q.data ∨
    "remember".data <:+: q.data ∨ ("which".data <:+: q.data ∧ "ask".data <:+: q.data)

/-- The field contains a null byte, `$`, a backtick, "../" or "..\", or is
longer than 1024 bytes. -/
def HasForbiddenContent (field : String) : Prop :=
  "\x00".data <:+: field.data ∨ "$".data <:+: field.data ∨ "`".data <:+: field.data ∨
    "../".data <:+: field.data ∨ "..\\".data <:+: field.data ∨ 1024 < field.utf8ByteSize

/-- The path is absolute, or its extension is not ".csv", or its cleaned form
contains "..", or it contains `$` or a backtick, or its base name starts with
".", or it contains "://". -/
def IsRefusedPath (path : String) : Prop :=
  "/".data <+: path.data ∨ Ext path ≠ ".csv" ∨ "..".data <:+: (Clean path).data ∨
    "$".data <:+: path.data ∨ "`".data <:+: path.data ∨ ".".data <+: (Base path).data ∨
    "://".data <:+: path.data

/-- A file system in which every path opens to the same parsed rows. -/
def filesWith (rows : List (List String)) : String → Source :=
  fun _ => .rows rows

/-- The rows of "Path Traversal Attempt" (`file_security_test.go`, lines 31-32). -/
def traversalRows : List (List String) :=
  [["location", "tax_rate", "source"], ["../../../etc/passwd", "1.0%", "malicious.txt"]]

/-- Rows with a valid data row followed by the row of "Command Injection Attempt". -/
def injectionRows : List (List String) :=
  [["location", "tax_rate", "source"], ["Travis County", "1.9%", "tax_policies_2023.pdf"],
   ["$(rm -rf /)", "1.0%", "malicious.txt"]]

/-- Rows whose data row has the control character U+0007 in its first field. -/
def bellRows : List (List String) :=
  [["location", "tax_rate", "source"], ["Travis\x07County", "1.0%", "malicious.txt"]]

/-- The cursor and the memory agree: both are empty, or `lastLocation` is not
empty, satisfies `P` and is the location of the newest interaction. -/
def Consistent (P : String → Prop) (st : Session) : Prop :=
  (st.lastLocation = "" ∧ st.interactions = []) ∨
    (st.lastLocation ≠ "" ∧ P st.lastLocation ∧
      ∃ newest older, st.interactions = newest :: older ∧ newest.Location = st.lastLocation)

/-- The field-count rule of `csv.Reader.ReadAll` with the default
`FieldsPerRecord = 0`: every record must have as many fields as the first one.
`parsed` gives each record of the file with the line it starts on; the error
is that of the first record with another number of fields. -/
def readAll (parsed : List (Nat × List String)) : Source :=
  match parsed with
  | [] => .rows []
  | first :: rest =>
    match rest.find? (fun r => r.2.length != first.2.length) with
    | some r => .readError ("record on line " ++ toString r.1 ++ ": wrong number of fields")
    | none => .rows (parsed.map Prod.snd)

/-- The file of "Invalid Format" (`data_loader_test.go`, lines 52-53): a header
of three fields on line 1 and a data row of two fields on line 2. -/
def invalidFormatParsed : List (Nat × List String) :=
  [(1, ["location", "tax_rate", "source"]), (2, ["Travis County", "1.9%"])]

/-- Lines 94-99: the record appended for a validated, non-empty row. -/
def rowRecord (dataType : String) (headers row : List String) : Record :=
  { Location := row.head?.getD "", DataType := dataType,
    Values := buildValues headers row [], Source := row.getLast?.getD "" }

/-- The record `r` is what a data row `row` under `headers` is loaded as:
`Location` is the first field, `Source` the last, `DataType` the given tag, the
keys of `Values` are the headers other than "location" and "source", and
`Values` read at such a header gives the field of the last column that bears it. -/
def LoadedFrom (dataType : String) (headers row : List String) (r : Record) : Prop :=
  row.head? = some r.Location ∧ row.getLast? = some r.Source ∧ r.DataType = dataType ∧
    (∀ k, k ∈ r.Values.map Prod.fst ↔ k ∈ headers ∧ k ≠ "location" ∧ k ≠ "source") ∧
    ∀ (hpre hpost fpre fpost : List String) (h f : String),
      headers = hpre ++ h :: hpost → row = fpre ++ f :: fpost → hpre.length = fpre.length →
      h ≠ "location" → h ≠ "source" → ¬ h ∈ hpost → valueOf r.Values h = f

/-- Rows of `TestLoadDataWithSpecialCharacters` (`data_loader_test.go`, lines 117-119). -/
def specialRows : List (List String) :=
  [["location", "tax_rate", "source"], ["Travis County, TX", "1.9%", "tax_policies_2023.pdf"],
   ["São Paulo, BR", "2,1%", "tax_records_2023.csv"]]

/-- Rows whose header names two columns "tax_rate". -/
def duplicateHeaderRows : List (List String) :=
  [["location", "tax_rate", "tax_rate", "source"],
   ["Travis County", "1.9%", "2.1%", "tax_policies_2023.pdf"]]

/-! # Properties of the embedding -/



/-! ## The `strings` primitives -/

theorem hasPrefixL_iff (s p : List Char) : hasPrefixL s p = true ↔ p <+: s := by
  induction s generalizing p with
  | nil => cases p <;> simp [hasPrefixL]
  | cons c s ih =>
    cases p with
    | nil => simp [hasPrefixL]
    | cons d p =>
      simp only [hasPrefixL, Bool.and_eq_true, beq_iff_eq, ih, List.cons_prefix_cons]
      constructor <;> rintro ⟨h1, h2⟩ <;> exact ⟨h1.symm, h2⟩

theorem containsL_iff (s sub : List Char) : containsL s sub = true ↔ sub <:+: s := by
  induction s with
  | nil =>
    simp [containsL, hasPrefixL_iff]
  | cons c s ih =>
    simp only [containsL, Bool.or_eq_true, hasPrefixL_iff, ih]
    constructor
    · rintro (h | h)
      · exact h.isInfix
      · exact h.trans (List.suffix_cons c s).isInfix
    · intro h
      rcases List.infix_cons_iff.mp h with h | h
      · exact Or.inl h
      · exact Or.inr h

theorem Contains_iff (s sub : String) : Contains s sub = true ↔ sub.data <:+: s.data :=
  containsL_iff _ _

/-- Every token produced by the scanner is non-empty once the pending token is. -/
theorem fieldsL_ne_nil (s cur : List Char) : ∀ w ∈ fieldsL s cur, w ≠ [] := by
  induction s generalizing cur with
  | nil =>
    intro w hw
    unfold fieldsL at hw
    split at hw
    · simp at hw
    · rename_i h
      simp only [List.mem_singleton] at hw
      subst hw
      intro h0
      simp [h0] at h
  | cons c s ih =>
    intro w hw
    unfold fieldsL at hw
    split at hw
    · split at hw
      · exact ih [] w hw
      · rename_i h
        rcases List.mem_cons.mp hw with h1 | h1
        · subst h1
          intro h0
          simp [h0] at h
        · exact ih [] w h1
    · exact ih _ w hw

theorem Fields_ne_empty (s : String) : ∀ w ∈ Fields s, w ≠ "" := by
  intro w hw
  simp only [Fields, List.mem_map] at hw
  obtain ⟨l, hl, rfl⟩ := hw
  intro h
  have : l = [] := by
    have := congrArg String.data h
    simpa using this
  exact fieldsL_ne_nil _ _ l hl this

/-! ## The two passes of `FindRelevantInfo` -/

theorem matchWords_eq (record : Record) (location : String) (words : List String) :
    matchWords record location words =
      if words.any (fun w => Contains location w) then record.Location else "" := by
  induction words with
  | nil => simp [matchWords]
  | cons w ws ih =>
    simp only [matchWords, List.any_cons, ih]
    by_cases h : Contains location w = true
    · simp [h]
    · simp [h]

/-- A word of the query that is not empty can only be found in a non-empty location. -/
theorem matchWords_ne_empty (lower : Char → Char) (record : Record) (words : List String)
    (hw : ∀ w ∈ words, w ≠ "")
    (h : words.any (fun w => Contains (ToLower lower record.Location) w) = true) :
    record.Location ≠ "" := by
  intro h0
  simp only [List.any_eq_true] at h
  obtain ⟨w, hwm, hc⟩ := h
  rw [Contains_iff] at hc
  simp only [ToLower, h0] at hc
  have : w.data = [] := by simpa using hc
  apply hw w hwm
  cases w
  simp_all


/-- Records whose lower-cased location holds no query word are passed over by the first pass. -/
theorem findLocation_skip (lower : Char → Char) (words : List String) (pre rest : List Record)
    (hpre : ∀ x ∈ pre, words.any (fun w => Contains (ToLower lower x.Location) w) = false) :
    findLocation lower words (pre ++ rest) = findLocation lower words rest := by
  induction pre with
  | nil => rfl
  | cons x pre ih =>
    have hx := hpre x (List.mem_cons_self _ _)
    have ih1 := ih (fun y hy => hpre y (List.mem_cons_of_mem _ hy))
    simp [findLocation, matchWords_eq, hx, ih1]

theorem findLocation_hit (lower : Char → Char) (words : List String) (r : Record)
    (rest : List Record) (hw : ∀ w ∈ words, w ≠ "")
    (h : words.any (fun w => Contains (ToLower lower r.Location) w) = true) :
    findLocation lower words (r :: rest) = r.Location := by
  have hne := matchWords_ne_empty lower r words hw h
  simp [findLocation, matchWords_eq, h, hne]

theorem findLocation_none (lower : Char → Char) (words : List String) (records : List Record)
    (h : ∀ x ∈ records, words.any (fun w => Contains (ToLower lower x.Location) w) = false) :
    findLocation lower words records = "" := by
  have := findLocation_skip lower words records [] h
  simpa [findLocation] using this

/-- A location found by the first pass is the location of a record of the store. -/
theorem findLocation_mem (lower : Char → Char) (words : List String) (records : List Record)
    (h : findLocation lower words records ≠ "") :
    ∃ r ∈ records, r.Location = findLocation lower words records := by
  induction records with
  | nil => simp [findLocation] at h
  | cons x rest ih =>
    by_cases hx : words.any (fun w => Contains (ToLower lower x.Location) w) = true
    · by_cases hl : x.Location = ""
      · have e : findLocation lower words (x :: rest) = findLocation lower words rest := by
          simp [findLocation, matchWords_eq, hl]
        rw [e] at h ⊢
        obtain ⟨r, hr, hrl⟩ := ih h
        exact ⟨r, List.mem_cons_of_mem _ hr, hrl⟩
      · refine ⟨x, List.mem_cons_self _ _, ?_⟩
        simp [findLocation, matchWords_eq, hx, hl]
    · have e : findLocation lower words (x :: rest) = findLocation lower words rest := by
        simp [findLocation, matchWords_eq, hx]
      rw [e] at h ⊢
      obtain ⟨r, hr, hrl⟩ := ih h
      exact ⟨r, List.mem_cons_of_mem _ hr, hrl⟩

/-- The second pass renders something as soon as a record of the location has an unseen category. -/
theorem gatherInfo_ne_nil (L : String) (records : List Record) (seen : List String)
    (h : ∃ r ∈ records, r.Location = L ∧ ¬ r.DataType ∈ seen) :
    gatherInfo L records seen ≠ [] := by
  induction records generalizing seen with
  | nil => simp at h
  | cons x rest ih =>
    by_cases hx : x.Location = L ∧ ¬ x.DataType ∈ seen
    · simp [gatherInfo, hx]
    · obtain ⟨r, hr, hrl, hrs⟩ := h
      have hr1 : r ∈ rest := by
        rcases List.mem_cons.mp hr with e | e
        · subst e
          exact absurd ⟨hrl, hrs⟩ hx
        · exact e
      have := ih seen ⟨r, hr1, hrl, hrs⟩
      simpa [gatherInfo, hx] using this

/-! ## The three outcomes of `FindRelevantInfo` -/

/-- A memory-related query returns the summary and leaves the session as it is. -/
theorem FindRelevantInfo_memory (lower : Char → Char) (seed : List Nat) (now : Nat)
    (st : Session) (query : String) (records : List Record)
    (hm : isMemoryQuery (ToLower lower (TrimSpace query)) = true) :
    FindRelevantInfo lower seed now st query records = ((getMemoryInfo seed st, ""), st) := by
  simp [FindRelevantInfo, hm]

theorem FindRelevantInfo_found (lower : Char → Char) (seed : List Nat) (now : Nat)
    (st : Session) (query : String) (records : List Record) (L : String)
    (hm : isMemoryQuery (ToLower lower (TrimSpace query)) = false)
    (hL : findLocation lower
      (Fields (rewriteQuery lower st.lastLocation (ToLower lower (TrimSpace query)))) records = L)
    (hne : L ≠ "") :
    FindRelevantInfo lower seed now st query records =
      ((Join (gatherInfo L records []) "\n",
        if L ≠ st.lastLocation then followUpPrompt L else ""),
       addInteraction now { st with lastLocation := L } L
        (rewriteQuery lower st.lastLocation (ToLower lower (TrimSpace query)))) := by
  have hmem : ∃ r ∈ records, r.Location = L := by
    have := findLocation_mem lower _ records (by rw [hL]; exact hne)
    rw [hL] at this
    exact this
  have hg : gatherInfo L records [] ≠ [] := by
    apply gatherInfo_ne_nil
    obtain ⟨r, hr, hrl⟩ := hmem
    exact ⟨r, hr, hrl, by simp⟩
  have hlen : (gatherInfo L records []).length ≠ 0 := by
    simpa [List.length_eq_zero] using hg
  have h1 : (L != "") = true := by simpa using hne
  unfold FindRelevantInfo
  simp only [hm, hL, h1, Bool.false_eq_true, if_false, if_true]
  by_cases hc : L = st.lastLocation
  · have hst : ({ st with lastLocation := L } : Session) = st := by
      cases st
      simp_all
    have h2 : (L != st.lastLocation) = false := by simpa using hc
    rw [if_neg (not_not.mpr hc)]
    simp only [h2, hlen, hst, Bool.false_eq_true, if_false]
  · have h2 : (L != st.lastLocation) = true := by simpa using hc
    rw [if_pos hc]
    simp only [h2, hlen, if_true, if_false]

theorem FindRelevantInfo_miss (lower : Char → Char) (seed : List Nat) (now : Nat)
    (st : Session) (query : String) (records : List Record)
    (hm : isMemoryQuery (ToLower lower (TrimSpace query)) = false)
    (hL : findLocation lower
      (Fields (rewriteQuery lower st.lastLocation (ToLower lower (TrimSpace query)))) records = "") :
    FindRelevantInfo lower seed now st query records =
      ((if st.lastLocation ≠ "" then assumeMessage st.lastLocation
        else "No information found. Available locations: " ++ getAvailableLocations seed records,
        ""), st) := by
  have h1 : (("" : String) != "") = false := by decide
  unfold FindRelevantInfo
  simp only [hm, hL, h1, Bool.false_eq_true, if_false, List.length_nil, if_true]
  by_cases hc : st.lastLocation = ""
  · have h2 : (st.lastLocation != "") = false := by simpa using hc
    rw [if_neg (not_not.mpr hc)]
    simp only [h2, Bool.false_eq_true, if_false]
  · have h2 : (st.lastLocation != "") = true := by simpa using hc
    rw [if_pos hc]
    simp only [h2, if_true]


/-! ## Session memory -/

theorem addInteraction_interactions (now : Nat) (st : Session) (location question : String) :
    (addInteraction now st location question).interactions =
      (({ Location := location, Question := question, Timestamp := now } : Interaction) ::
        st.interactions).take st.memorySize := by
  unfold addInteraction
  simp only []
  split
  · rfl
  · rename_i h
    rw [List.take_of_length_le (by omega)]

theorem addInteraction_memorySize (now : Nat) (st : Session) (location question : String) :
    (addInteraction now st location question).memorySize = st.memorySize := by
  unfold addInteraction
  simp only []
  split <;> rfl

theorem addInteraction_lastLocation (now : Nat) (st : Session) (location question : String) :
    (addInteraction now st location question).lastLocation = st.lastLocation := by
  unfold addInteraction
  simp only []
  split <;> rfl

/-- What a call does to the session, in terms of what it resolves. -/
theorem FindRelevantInfo_session (lower : Char → Char) (seed : List Nat) (now : Nat)
    (st : Session) (query : String) (records : List Record) :
    (FindRelevantInfo lower seed now st query records).2 =
      match resolution lower st query records with
      | some (location, question) =>
        addInteraction now { st with lastLocation := location } location question
      | none => st := by
  by_cases hm : isMemoryQuery (ToLower lower (TrimSpace query)) = true
  · rw [FindRelevantInfo_memory lower seed now st query records hm]
    simp [resolution, hm]
  · have hm0 : isMemoryQuery (ToLower lower (TrimSpace query)) = false := by simpa using hm
    by_cases hL : findLocation lower
        (Fields (rewriteQuery lower st.lastLocation (ToLower lower (TrimSpace query)))) records = ""
    · rw [FindRelevantInfo_miss lower seed now st query records hm0 hL]
      simp [resolution, hm0, hL]
    · rw [FindRelevantInfo_found lower seed now st query records _ hm0 rfl hL]
      simp [resolution, hm0, hL]

theorem FindRelevantInfo_memorySize (lower : Char → Char) (seed : List Nat) (now : Nat)
    (st : Session) (query : String) (records : List Record) :
    (FindRelevantInfo lower seed now st query records).2.memorySize = st.memorySize := by
  rw [FindRelevantInfo_session]
  cases resolution lower st query records with
  | none => rfl
  | some p => simp [addInteraction_memorySize]

theorem FindRelevantInfo_interactions (lower : Char → Char) (seed : List Nat) (now : Nat)
    (st : Session) (query : String) (records : List Record) :
    (FindRelevantInfo lower seed now st query records).2.interactions =
      match resolution lower st query records with
      | some (location, question) =>
        (({ Location := location, Question := question, Timestamp := now } : Interaction) ::
          st.interactions).take st.memorySize
      | none => st.interactions := by
  rw [FindRelevantInfo_session]
  cases resolution lower st query records with
  | none => rfl
  | some p => simp [addInteraction_interactions]

/-- A call keeps the memory within its capacity. -/
theorem FindRelevantInfo_bound (lower : Char → Char) (seed : List Nat) (now : Nat)
    (st : Session) (query : String) (records : List Record)
    (h : st.interactions.length ≤ st.memorySize) :
    (FindRelevantInfo lower seed now st query records).2.interactions.length ≤ st.memorySize := by
  rw [FindRelevantInfo_interactions]
  cases resolution lower st query records with
  | none => exact h
  | some p => simp [List.length_take]

theorem runCalls_memorySize (lower : Char → Char) (st : Session) (calls : List Call) :
    (runCalls lower st calls).memorySize = st.memorySize := by
  induction calls generalizing st with
  | nil => rfl
  | cons c calls ih => simp [runCalls, ih, FindRelevantInfo_memorySize]

theorem runCalls_bound (lower : Char → Char) (st : Session) (calls : List Call)
    (h : st.interactions.length ≤ st.memorySize) :
    (runCalls lower st calls).interactions.length ≤ st.memorySize := by
  induction calls generalizing st with
  | nil => exact h
  | cons c calls ih =>
    simp only [runCalls]
    have h1 := FindRelevantInfo_bound lower c.seed c.now st c.query c.records h
    have h2 := FindRelevantInfo_memorySize lower c.seed c.now st c.query c.records
    have := ih (FindRelevantInfo lower c.seed c.now st c.query c.records).2 (by omega)
    omega

theorem take_append_take {α : Type} (m : Nat) (xs ys : List α) :
    (xs ++ ys.take m).take m = (xs ++ ys).take m := by
  rw [List.take_append_eq_append_take, List.take_append_eq_append_take, List.take_take]
  congr 2
  omega

/-- The memory after a sequence of calls: the recorded interactions, newest
first, in front of the old memory, cut to the capacity. -/
theorem runCalls_interactions (lower : Char → Char) (st : Session) (calls : List Call)
    (h : st.interactions.length ≤ st.memorySize) :
    (runCalls lower st calls).interactions =
      ((recorded lower st calls).reverse ++ st.interactions).take st.memorySize := by
  induction calls generalizing st with
  | nil =>
    simp only [runCalls, recorded, List.reverse_nil, List.nil_append]
    rw [List.take_of_length_le h]
  | cons c calls ih =>
    simp only [runCalls, recorded]
    have h1 := FindRelevantInfo_bound lower c.seed c.now st c.query c.records h
    have h2 := FindRelevantInfo_memorySize lower c.seed c.now st c.query c.records
    rw [ih _ (by omega), h2, FindRelevantInfo_interactions]
    cases resolution lower st c.query c.records with
    | none => simp
    | some p =>
      simp only [List.reverse_append, List.reverse_cons, List.reverse_nil, List.nil_append,
        List.append_assoc, List.singleton_append]
      exact take_append_take _ _ _

/-- C5 (session memory bound).  After any `addInteraction` call the memory is the
new interaction in front of the old memory cut to its first `memorySize`
entries, so it holds at most `memorySize` interactions; `FindRelevantInfo`
never changes `memorySize`, and after every sequence of `FindRelevantInfo`
calls from process start the memory holds at most `memorySize` interactions. -/
theorem memory_bound_invariant (lower : Char → Char) (now : Nat) (st : Session)
    (location question : String) (memorySize : Nat) (calls : List Call) :
    (addInteraction now st location question).interactions =
        (({ Location := location, Question := question, Timestamp := now } : Interaction) ::
          st.interactions).take st.memorySize ∧
      (addInteraction now st location question).interactions.length ≤
        (addInteraction now st location question).memorySize ∧
      (runCalls lower (initSession memorySize) calls).interactions.length ≤
        (runCalls lower (initSession memorySize) calls).memorySize := by
  refine ⟨addInteraction_interactions _ _ _ _, ?_, ?_⟩
  · rw [addInteraction_interactions, addInteraction_memorySize]
    simp [List.length_take]
  · rw [runCalls_memorySize]
    exact runCalls_bound lower (initSession memorySize) calls (by simp [initSession])

/-- C6 (memory contents after overflow).  Starting from an empty memory, once
more than `memorySize` interactions have been recorded the memory has length
exactly `memorySize` and is the first `memorySize` entries of the recorded
interactions read newest first. -/
theorem memory_after_overflow (lower : Char → Char) (memorySize : Nat) (calls : List Call)
    (hN : memorySize < (recorded lower (initSession memorySize) calls).length) :
    (runCalls lower (initSession memorySize) calls).interactions.length = memorySize ∧
      (runCalls lower (initSession memorySize) calls).interactions =
        (recorded lower (initSession memorySize) calls).reverse.take memorySize := by
  have h := runCalls_interactions lower (initSession memorySize) calls (by simp [initSession])
  simp only [initSession, List.append_nil] at h
  simp only [initSession] at hN ⊢
  rw [h]
  refine ⟨?_, rfl⟩
  rw [List.length_take, List.length_reverse]
  omega


/-- Witness for C6: three resolving calls with `memorySize = 2`. -/
theorem memory_after_overflow_witness :
    2 < (recorded asciiLower (initSession 2) overflowCalls).length ∧
      ((runCalls asciiLower (initSession 2) overflowCalls).interactions.length = 2 ∧
        (runCalls asciiLower (initSession 2) overflowCalls).interactions =
          (recorded asciiLower (initSession 2) overflowCalls).reverse.take 2) :=
  ⟨by decide, memory_after_overflow asciiLower 2 overflowCalls (by decide)⟩

/-! ## `GenerateAnswer` -/

theorem fallback_value (mainInfo followUp : String) :
    (if (followUp != "") = true then
        (Except.ok (mainInfo ++ followUp, none) : Except String (String × Option String))
      else Except.ok (mainInfo, none)) = Except.ok (mainInfo ++ followUp, none) := by
  by_cases h : followUp = ""
  · subst h
    simp
  · simp [h]

/-- C7 (augmentation fallback).  With a nil client, or with a client whose call
returns an error, `GenerateAnswer` returns exactly `mainInfo + followUp`
together with a nil error. -/
theorem generateAnswer_fallback (lastQuery : String) (client : Option Client)
    (mainInfo followUp question : String)
    (h : client = none ∨
      ∃ c e, client = some c ∧ c (chatRequest lastQuery mainInfo question) = Except.error e) :
    GenerateAnswer lastQuery client mainInfo followUp question =
      Except.ok (mainInfo ++ followUp, none) := by
  rcases h with h | ⟨c, e, h, he⟩
  · subst h
    simp only [GenerateAnswer]
    exact fallback_value mainInfo followUp
  · subst h
    simp only [chatRequest] at he
    simp only [GenerateAnswer, he]
    exact fallback_value mainInfo followUp

/-- Witness for C7: the nil client of `TestGenerateAnswerWithNilClient` and a failing client. -/
theorem generateAnswer_fallback_witness :
    GenerateAnswer "" none "Test context" "" "Test question" = Except.ok ("Test context", none) ∧
      GenerateAnswer "Test question" (some failingClient) "Test context" "\nMore?" "Again" =
        Except.ok ("Test context\nMore?", none) :=
  ⟨generateAnswer_fallback "" none "Test context" "" "Test question" (Or.inl rfl),
   generateAnswer_fallback "Test question" (some failingClient) "Test context" "\nMore?" "Again"
    (Or.inr ⟨failingClient, "status code: 401", rfl, rfl⟩)⟩

/-- C8 (the composer never raises), failing input.  When the call succeeds with
an empty list of choices, `resp.Choices[0]` is out of range and `GenerateAnswer`
panics instead of returning an answer. -/
theorem generateAnswer_empty_choices_panics :
    GenerateAnswer "" (some emptyChoicesClient) "Test context" "" "Test question" =
      Except.error "runtime error: index out of range [0] with length 0" := by
  rfl

/-- With at least one choice the call returns the first choice followed by the follow-up. -/
theorem generateAnswer_first_choice (lastQuery : String) (c : Client)
    (mainInfo followUp question choice : String) (rest : List String)
    (h : c (chatRequest lastQuery mainInfo question) = Except.ok { Choices := choice :: rest }) :
    GenerateAnswer lastQuery (some c) mainInfo followUp question =
      Except.ok (choice ++ followUp, none) := by
  simp only [chatRequest] at h
  simp only [GenerateAnswer, h]
  exact fallback_value choice followUp

/-! ## The no-match message -/

set_option maxRecDepth 100000 in
/-- C10 (no-match message of the tests), failing inputs.  For the queries
`"Dallas"` and `""` of `TestFindRelevantInfo` the main response does not contain
`"No relevant information found in the database"`: at process start it is the
list of available locations, and in the state the earlier sub-tests leave
behind it is the guidance about the remembered location. -/
theorem no_match_message_differs :
    (FindRelevantInfo asciiLower [] 0 (initSession 5) "Dallas" testStore).1.1 =
        "No information found. Available locations: " ++
          "Travis County, Williamson County, Travis Heights" ∧
      Contains (FindRelevantInfo asciiLower [] 0 (initSession 5) "Dallas" testStore).1.1
        "No relevant information found in the database" = false ∧
      Contains (FindRelevantInfo asciiLower [] 0 (initSession 5) "" testStore).1.1
        "No relevant information found in the database" = false ∧
      (FindRelevantInfo asciiLower [] 0
          (runCalls asciiLower (initSession 5) testCallsBeforeNoMatch) "Dallas" testStore).1.1 =
        assumeMessage "Travis County" ∧
      Contains (FindRelevantInfo asciiLower [] 0
          (runCalls asciiLower (initSession 5) testCallsBeforeNoMatch) "Dallas" testStore).1.1
        "No relevant information found in the database" = false := by
  refine ⟨by decide, by decide, by decide, by decide, by decide⟩


/-! ## Map keys and their iteration order -/

theorem mem_mapKeys (keys : List String) (x : String) : x ∈ mapKeys keys ↔ x ∈ keys := by
  induction keys with
  | nil => simp [mapKeys]
  | cons k ks ih =>
    simp only [mapKeys, List.mem_cons, List.mem_filter, ih, bne_iff_ne, ne_eq]
    constructor
    · rintro (h | ⟨h, _⟩)
      · exact Or.inl h
      · exact Or.inr h
    · rintro (h | h)
      · exact Or.inl h
      · by_cases e : x = k
        · exact Or.inl e
        · exact Or.inr ⟨h, e⟩

theorem nodup_mapKeys (keys : List String) : (mapKeys keys).Nodup := by
  induction keys with
  | nil => simp [mapKeys]
  | cons k ks ih =>
    simp only [mapKeys, List.nodup_cons, List.mem_filter, bne_iff_ne, ne_eq, not_true_eq_false,
      and_false, not_false_eq_true, true_and]
    exact ih.filter _

theorem mapOrder_perm (seed : List Nat) (keys : List String) :
    (mapOrder seed keys).Perm keys := by
  induction seed generalizing keys with
  | nil => exact List.Perm.refl _
  | cons n seed ih =>
    have hrot : (keys.drop (n % keys.length) ++ keys.take (n % keys.length)).Perm keys := by
      have h : (keys.drop (n % keys.length) ++ keys.take (n % keys.length)).Perm
          (keys.take (n % keys.length) ++ keys.drop (n % keys.length)) :=
        List.perm_append_comm
      rw [List.take_append_drop] at h
      exact h
    unfold mapOrder
    split
    · rename_i h
      rw [h] at hrot
      exact hrot
    · rename_i k rest h
      rw [h] at hrot
      exact ((ih rest).cons k).trans hrot

/-! ## Resolution -/

theorem resolution_eq (lower : Char → Char) (st : Session) (query : String)
    (records : List Record)
    (hm : isMemoryQuery (ToLower lower (TrimSpace query)) = false) :
    resolution lower st query records =
      if findLocation lower (Fields (rewrittenQuery lower st query)) records ≠ "" then
        some (findLocation lower (Fields (rewrittenQuery lower st query)) records,
          rewrittenQuery lower st query)
      else none := by
  simp [resolution, hm, rewrittenQuery]

theorem matchesToken_iff (lower : Char → Char) (words : List String) (r : Record) :
    MatchesToken lower words r ↔
      words.any (fun w => Contains (ToLower lower r.Location) w) = true := by
  simp [MatchesToken, Contains_iff]

theorem not_matchesToken_iff (lower : Char → Char) (words : List String) (r : Record) :
    ¬ MatchesToken lower words r ↔
      words.any (fun w => Contains (ToLower lower r.Location) w) = false := by
  rw [matchesToken_iff]
  simp

/-- First-match resolution of the first pass over the tokens of a query. -/
theorem findLocation_first (lower : Char → Char) (q : String) (pre post : List Record)
    (r : Record) (hr : MatchesToken lower (Fields q) r)
    (hpre : ∀ x ∈ pre, ¬ MatchesToken lower (Fields q) x) :
    findLocation lower (Fields q) (pre ++ r :: post) = r.Location ∧ r.Location ≠ "" := by
  rw [findLocation_skip lower _ pre _ (fun x hx => (not_matchesToken_iff _ _ _).mp (hpre x hx))]
  have h := (matchesToken_iff _ _ _).mp hr
  exact ⟨findLocation_hit lower _ r post (Fields_ne_empty q) h,
    matchWords_ne_empty lower r _ (Fields_ne_empty q) h⟩

/-- What a call returns and records once the first pass has found `L`. -/
theorem FindRelevantInfo_resolves (lower : Char → Char) (seed : List Nat) (now : Nat)
    (st : Session) (query : String) (records : List Record) (L : String)
    (hm : isMemoryQuery (ToLower lower (TrimSpace query)) = false)
    (hL : findLocation lower (Fields (rewrittenQuery lower st query)) records = L)
    (hne : L ≠ "") :
    resolution lower st query records = some (L, rewrittenQuery lower st query) ∧
      (FindRelevantInfo lower seed now st query records).2.lastLocation = L ∧
      (FindRelevantInfo lower seed now st query records).1.1 =
        Join (gatherInfo L records []) "\n" ∧
      (FindRelevantInfo lower seed now st query records).2.interactions =
        (({ Location := L, Question := rewrittenQuery lower st query,
            Timestamp := now } : Interaction) :: st.interactions).take st.memorySize := by
  have hres : resolution lower st query records = some (L, rewrittenQuery lower st query) := by
    rw [resolution_eq lower st query records hm, hL]
    simp [hne]
  refine ⟨hres, ?_, ?_, ?_⟩
  · rw [FindRelevantInfo_session, hres]
    simp [addInteraction_lastLocation]
  · rw [FindRelevantInfo_found lower seed now st query records L hm hL hne]
  · rw [FindRelevantInfo_interactions, hres]

/-- C3 (first-match resolution).  For a query that is not memory-related, the
location resolved by `FindRelevantInfo` is the `Location` of the first record
in store order whose lower-cased `Location` contains a token of the rewritten
query: it becomes `lastLocation`, its facts are the main response and it is
recorded in the memory.  If no record qualifies, nothing is resolved and the
session is unchanged. -/
theorem first_match_resolution (lower : Char → Char) (seed : List Nat) (now : Nat)
    (st : Session) (query : String) (records : List Record)
    (hm : isMemoryQuery (ToLower lower (TrimSpace query)) = false) :
    (∀ (pre post : List Record) (r : Record), records = pre ++ r :: post →
        MatchesToken lower (Fields (rewrittenQuery lower st query)) r →
        (∀ x ∈ pre, ¬ MatchesToken lower (Fields (rewrittenQuery lower st query)) x) →
        resolution lower st query records = some (r.Location, rewrittenQuery lower st query) ∧
        (FindRelevantInfo lower seed now st query records).2.lastLocation = r.Location ∧
        (FindRelevantInfo lower seed now st query records).1.1 =
          Join (gatherInfo r.Location records []) "\n" ∧
        (FindRelevantInfo lower seed now st query records).2.interactions =
          (({ Location := r.Location, Question := rewrittenQuery lower st query,
              Timestamp := now } : Interaction) :: st.interactions).take st.memorySize) ∧
      ((∀ x ∈ records, ¬ MatchesToken lower (Fields (rewrittenQuery lower st query)) x) →
        resolution lower st query records = none ∧
        (FindRelevantInfo lower seed now st query records).2 = st) := by
  constructor
  · intro pre post r hrec hr hpre
    obtain ⟨hL, hne⟩ := findLocation_first lower _ pre post r hr hpre
    rw [← hrec] at hL
    exact FindRelevantInfo_resolves lower seed now st query records r.Location hm hL hne
  · intro hall
    have hL : findLocation lower (Fields (rewrittenQuery lower st query)) records = "" :=
      findLocation_none lower _ records
        (fun x hx => (not_matchesToken_iff _ _ _).mp (hall x hx))
    have hres : resolution lower st query records = none := by
      rw [resolution_eq lower st query records hm, hL]
      simp
    refine ⟨hres, ?_⟩
    rw [FindRelevantInfo_session, hres]


/-- Witness for C3: with "Travis County" and "Travis Heights" both in the store,
the query "Travis" resolves to whichever of them comes first. -/
theorem first_match_resolution_witness :
    isMemoryQuery (ToLower asciiLower (TrimSpace "Travis")) = false ∧
      (FindRelevantInfo asciiLower [] 0 (initSession 5) "Travis" testStore).2.lastLocation =
        "Travis County" ∧
      (FindRelevantInfo asciiLower [] 0 (initSession 5) "Travis"
        heightsFirstStore).2.lastLocation = "Travis Heights" ∧
      (FindRelevantInfo asciiLower [] 0 (initSession 5) "Dallas" testStore).2 = initSession 5 :=
  ⟨by decide,
   ((first_match_resolution asciiLower [] 0 (initSession 5) "Travis" testStore (by decide)).1
      [] testStore.tail
      { Location := "Travis County", DataType := "tax", Values := [("tax_rate", "1.9%")],
        Source := "tax_policies_2023.pdf" } rfl
      ((matchesToken_iff _ _ _).mpr (by decide)) (by simp)).2.1,
   ((first_match_resolution asciiLower [] 0 (initSession 5) "Travis" heightsFirstStore
      (by decide)).1
      [] heightsFirstStore.tail
      { Location := "Travis Heights", DataType := "tax", Values := [("tax_rate", "1.8%")],
        Source := "local_rates.pdf" } rfl
      ((matchesToken_iff _ _ _).mpr (by decide)) (by simp)).2.1,
   ((first_match_resolution asciiLower [] 0 (initSession 5) "Dallas" testStore (by decide)).2
      (fun x hx => (not_matchesToken_iff _ _ _).mpr (by
        simp only [testStore, List.mem_cons, List.mem_singleton, List.not_mem_nil,
          or_false] at hx
        rcases hx with rfl | rfl | rfl <;> decide))).2⟩


theorem resolution_some (lower : Char → Char) (st : Session) (query : String)
    (records : List Record) (L question : String)
    (h : resolution lower st query records = some (L, question)) :
    isMemoryQuery (ToLower lower (TrimSpace query)) = false ∧
      findLocation lower (Fields (rewrittenQuery lower st query)) records = L ∧ L ≠ "" ∧
      question = rewrittenQuery lower st query := by
  by_cases hm : isMemoryQuery (ToLower lower (TrimSpace query)) = true
  · simp [resolution, hm] at h
  · have hm0 : isMemoryQuery (ToLower lower (TrimSpace query)) = false := by simpa using hm
    rw [resolution_eq lower st query records hm0] at h
    split at h
    · rename_i hne
      simp only [Option.some.injEq, Prod.mk.injEq] at h
      obtain ⟨h1, h2⟩ := h
      refine ⟨hm0, h1, ?_, h2.symm⟩
      rw [← h1]
      exact hne
    · simp at h

theorem resolution_none (lower : Char → Char) (st : Session) (query : String)
    (records : List Record)
    (hm : isMemoryQuery (ToLower lower (TrimSpace query)) = false)
    (h : resolution lower st query records = none) :
    findLocation lower (Fields (rewrittenQuery lower st query)) records = "" := by
  rw [resolution_eq lower st query records hm] at h
  split at h
  · simp at h
  · rename_i hne
    simpa using hne

/-! ## The second pass -/

theorem gatherInfo_eq_map (L : String) (records : List Record) (seen : List String) :
    gatherInfo L records seen = (gatherRecords L records seen).map formatRecordInfo := by
  induction records generalizing seen with
  | nil => rfl
  | cons x rest ih =>
    by_cases hx : x.Location = L ∧ ¬ x.DataType ∈ seen
    · simp [gatherInfo, gatherRecords, hx, ih]
    · simp only [gatherInfo, gatherRecords, hx, if_false, ih]

theorem gatherRecords_sublist (L : String) (records : List Record) (seen : List String) :
    (gatherRecords L records seen).Sublist records := by
  induction records generalizing seen with
  | nil => exact List.Sublist.slnil
  | cons x rest ih =>
    by_cases hx : x.Location = L ∧ ¬ x.DataType ∈ seen
    · simp only [gatherRecords, hx, and_self, not_false_eq_true, if_true]
      exact (ih _).cons₂ x
    · simp only [gatherRecords, hx, if_false]
      exact (ih _).cons x

theorem gatherRecords_mem (L : String) (records : List Record) (seen : List String) :
    ∀ b ∈ gatherRecords L records seen, b.Location = L ∧ ¬ b.DataType ∈ seen := by
  induction records generalizing seen with
  | nil => simp [gatherRecords]
  | cons x rest ih =>
    intro b hb
    by_cases hx : x.Location = L ∧ ¬ x.DataType ∈ seen
    · simp only [gatherRecords, hx, and_self, not_false_eq_true, if_true, List.mem_cons] at hb
      rcases hb with rfl | hb
      · exact hx
      · have := ih _ b hb
        exact ⟨this.1, fun hs => this.2 (List.mem_cons_of_mem _ hs)⟩
    · simp only [gatherRecords, hx, if_false] at hb
      exact ih _ b hb

theorem gatherRecords_nodup (L : String) (records : List Record) (seen : List String) :
    ((gatherRecords L records seen).map (fun b => b.DataType)).Nodup := by
  induction records generalizing seen with
  | nil => simp [gatherRecords]
  | cons x rest ih =>
    by_cases hx : x.Location = L ∧ ¬ x.DataType ∈ seen
    · simp only [gatherRecords, hx, and_self, not_false_eq_true, if_true, List.map_cons,
        List.nodup_cons, List.mem_map, not_exists, not_and]
      refine ⟨?_, ih _⟩
      intro b hb heq
      exact (gatherRecords_mem L rest _ b hb).2 (by simp [heq])
    · simp only [gatherRecords, hx, if_false]
      exact ih _

theorem gatherRecords_cover (L : String) (records : List Record) (seen : List String) :
    ∀ r ∈ records, r.Location = L →
      r.DataType ∈ seen ∨ ∃ b ∈ gatherRecords L records seen, b.DataType = r.DataType := by
  induction records generalizing seen with
  | nil => simp
  | cons x rest ih =>
    intro r hr hrl
    by_cases hx : x.Location = L ∧ ¬ x.DataType ∈ seen
    · simp only [gatherRecords, hx, and_self, not_false_eq_true, if_true, List.mem_cons,
        exists_eq_or_imp]
      rcases List.mem_cons.mp hr with rfl | hr1
      · exact Or.inr (Or.inl rfl)
      · rcases ih (x.DataType :: seen) r hr1 hrl with h | h
        · rcases List.mem_cons.mp h with h | h
          · exact Or.inr (Or.inl h.symm)
          · exact Or.inl h
        · exact Or.inr (Or.inr h)
    · simp only [gatherRecords, hx, if_false]
      rcases List.mem_cons.mp hr with rfl | hr1
      · have : r.DataType ∈ seen := by
          by_contra hns
          exact hx ⟨hrl, hns⟩
        exact Or.inl this
      · exact ih seen r hr1 hrl

theorem gatherRecords_first (L : String) (records : List Record) (seen : List String) :
    ∀ b ∈ gatherRecords L records seen,
      records.find? (fun r => decide (r.Location = L ∧ r.DataType = b.DataType)) = some b := by
  induction records generalizing seen with
  | nil => simp [gatherRecords]
  | cons x rest ih =>
    intro b hb
    by_cases hx : x.Location = L ∧ ¬ x.DataType ∈ seen
    · simp only [gatherRecords, hx, and_self, not_false_eq_true, if_true, List.mem_cons] at hb
      rcases hb with rfl | hb
      · simp [List.find?, hx.1]
      · have hne : ¬ x.DataType = b.DataType := by
          intro e
          exact (gatherRecords_mem L rest _ b hb).2 (by simp [e])
        have := ih _ b hb
        simp only [List.find?, hne, and_false, decide_False]
        exact this
    · simp only [gatherRecords, hx, if_false] at hb
      have hb2 := gatherRecords_mem L rest _ b hb
      have hne : ¬ (x.Location = L ∧ x.DataType = b.DataType) := by
        rintro ⟨e1, e2⟩
        apply hx
        refine ⟨e1, ?_⟩
        rw [e2]
        exact hb2.2
      have := ih _ b hb
      simp only [List.find?, hne, decide_False]
      exact this

/-- C4 (at most one block per category).  When a query resolves a location `L`,
the main response is the `"\n"`-join of `formatRecordInfo` over a list `blocks`
of records that follows store order, holds for each `DataType` occurring among
the records with `Location = L` exactly one record, namely the first record of
the store with that location and `DataType`. -/
theorem one_block_per_category (lower : Char → Char) (seed : List Nat) (now : Nat)
    (st : Session) (query : String) (records : List Record) (L question : String)
    (hres : resolution lower st query records = some (L, question)) :
    ∃ blocks : List Record,
      (FindRelevantInfo lower seed now st query records).1.1 =
        Join (blocks.map formatRecordInfo) "\n" ∧
      blocks.Sublist records ∧
      (blocks.map (fun b => b.DataType)).Nodup ∧
      (∀ t, t ∈ blocks.map (fun b => b.DataType) ↔ ∃ r ∈ records, r.Location = L ∧ r.DataType = t) ∧
      (∀ b ∈ blocks,
        records.find? (fun r => decide (r.Location = L ∧ r.DataType = b.DataType)) = some b) := by
  obtain ⟨hm, hL, hne, _⟩ := resolution_some lower st query records L question hres
  refine ⟨gatherRecords L records [], ?_, gatherRecords_sublist _ _ _, gatherRecords_nodup _ _ _,
    ?_, gatherRecords_first _ _ _⟩
  · rw [FindRelevantInfo_found lower seed now st query records L hm hL hne, gatherInfo_eq_map]
  · intro t
    simp only [List.mem_map]
    constructor
    · rintro ⟨b, hb, rfl⟩
      exact ⟨b, (gatherRecords_sublist L records []).subset hb,
        (gatherRecords_mem L records [] b hb).1, rfl⟩
    · rintro ⟨r, hr, hrl, rfl⟩
      rcases gatherRecords_cover L records [] r hr hrl with h | h
      · simp at h
      · exact h

set_option maxRecDepth 100000 in
/-- Witness for C4: a store with two tax rows for "Texas" renders one tax block
(the first row) and one cost block. -/
theorem one_block_per_category_witness :
    resolution asciiLower (initSession 5) "Texas" duplicateStore = some ("Texas", "texas") ∧
      (FindRelevantInfo asciiLower [] 0 (initSession 5) "Texas" duplicateStore).1.1 =
        "According to state_taxes.csv, the tax rate in Texas is 6.25%\n" ++
        "Travel Costs for Texas (Source: travel_costs.csv):\n" ++
        "  - Average Daily Cost: $150\n  - Hotel: $100 per night\n  - Food: $40 per day" ∧
      ∃ blocks : List Record,
        (FindRelevantInfo asciiLower [] 0 (initSession 5) "Texas" duplicateStore).1.1 =
          Join (blocks.map formatRecordInfo) "\n" ∧
        blocks.Sublist duplicateStore ∧
        (blocks.map (fun b => b.DataType)).Nodup ∧
        (∀ t, t ∈ blocks.map (fun b => b.DataType) ↔
          ∃ r ∈ duplicateStore, r.Location = "Texas" ∧ r.DataType = t) ∧
        (∀ b ∈ blocks, duplicateStore.find?
          (fun r => decide (r.Location = "Texas" ∧ r.DataType = b.DataType)) = some b) :=
  ⟨by decide, by decide,
   one_block_per_category asciiLower [] 0 (initSession 5) "Texas" duplicateStore "Texas" "texas"
    (by decide)⟩


/-! ## Misses -/

/-- The names joined by `getAvailableLocations` are the distinct locations of the store. -/
theorem availableLocations_spec (seed : List Nat) (records : List Record) :
    ∃ locations : List String,
      getAvailableLocations seed records = Join locations ", " ∧ locations.Nodup ∧
      ∀ x, x ∈ locations ↔ ∃ r ∈ records, r.Location = x := by
  refine ⟨mapOrder seed (mapKeys (records.map (fun (r : Record) => r.Location))), rfl, ?_, ?_⟩
  · exact (mapOrder_perm seed _).nodup_iff.mpr (nodup_mapKeys _)
  · intro x
    rw [(mapOrder_perm seed _).mem_iff, mem_mapKeys]
    simp

/-- C9 (unknown query with no prior context).  For a query that is not
memory-related and resolves no location, with `lastLocation` empty,
`FindRelevantInfo` returns an empty follow-up and the main response
`"No information found. Available locations: "` followed by the `", "`-join of
a list holding every distinct `Location` of the store exactly once; the session
is unchanged. -/
theorem unknown_query_lists_locations (lower : Char → Char) (seed : List Nat) (now : Nat)
    (st : Session) (query : String) (records : List Record)
    (hm : isMemoryQuery (ToLower lower (TrimSpace query)) = false)
    (hres : resolution lower st query records = none)
    (hlast : st.lastLocation = "") :
    ∃ locations : List String,
      FindRelevantInfo lower seed now st query records =
        (("No information found. Available locations: " ++ Join locations ", ", ""), st) ∧
      locations.Nodup ∧
      ∀ x, x ∈ locations ↔ ∃ r ∈ records, r.Location = x := by
  obtain ⟨locations, hj, hnd, hmem⟩ := availableLocations_spec seed records
  refine ⟨locations, ?_, hnd, hmem⟩
  have hL := resolution_none lower st query records hm hres
  rw [FindRelevantInfo_miss lower seed now st query records hm hL, if_neg (not_not.mpr hlast), hj]

set_option maxRecDepth 100000 in
/-- Witness for C9: "Dallas" over the test store at process start, with a map
iteration order that starts at "Travis Heights". -/
theorem unknown_query_lists_locations_witness :
    isMemoryQuery (ToLower asciiLower (TrimSpace "Dallas")) = false ∧
      resolution asciiLower (initSession 5) "Dallas" testStore = none ∧
      (FindRelevantInfo asciiLower [2, 0] 0 (initSession 5) "Dallas" testStore).1.1 =
        "No information found. Available locations: " ++
          "Travis Heights, Travis County, Williamson County" ∧
      ∃ locations : List String,
        FindRelevantInfo asciiLower [2, 0] 0 (initSession 5) "Dallas" testStore =
          (("No information found. Available locations: " ++ Join locations ", ", ""),
            initSession 5) ∧
        locations.Nodup ∧
        ∀ x, x ∈ locations ↔ ∃ r ∈ testStore, r.Location = x :=
  ⟨by decide, by decide, by decide,
   unknown_query_lists_locations asciiLower [2, 0] 0 (initSession 5) "Dallas" testStore
    (by decide) (by decide) rfl⟩


/-! ## Tokens and trimming as substrings -/

theorem fieldsL_sub (s cur : List Char) : ∀ w ∈ fieldsL s cur, w <:+: cur ++ s := by
  induction s generalizing cur with
  | nil =>
    intro w hw
    unfold fieldsL at hw
    split at hw
    · simp at hw
    · simp only [List.mem_singleton] at hw
      subst hw
      simp
  | cons c s ih =>
    intro w hw
    have hsuf : s <:+: cur ++ c :: s :=
      ((List.suffix_cons c s).trans (List.suffix_append cur (c :: s))).isInfix
    unfold fieldsL at hw
    split at hw
    · split at hw
      · exact (by simpa using ih [] w hw : w <:+: s).trans hsuf
      · rcases List.mem_cons.mp hw with h1 | h1
        · subst h1
          exact (List.prefix_append _ _).isInfix
        · exact (by simpa using ih [] w h1 : w <:+: s).trans hsuf
    · have := ih (cur ++ [c]) w hw
      simpa using this

theorem Fields_sub (s : String) : ∀ w ∈ Fields s, w.data <:+: s.data := by
  intro w hw
  simp only [Fields, List.mem_map] at hw
  obtain ⟨l, hl, rfl⟩ := hw
  simpa using fieldsL_sub s.data [] l hl

theorem TrimSpace_sub (s : String) : (TrimSpace s).data <:+: s.data := by
  have h1 : (s.data.dropWhile isSpace) <:+: s.data := (List.dropWhile_suffix _).isInfix
  have h2 : ((s.data.dropWhile isSpace).reverse.dropWhile isSpace).reverse <:+:
      s.data.dropWhile isSpace := by
    have h : (s.data.dropWhile isSpace).reverse.dropWhile isSpace <:+
        (s.data.dropWhile isSpace).reverse := List.dropWhile_suffix isSpace
    have h3 := h.isInfix.reverse
    simpa using h3
  exact h2.trans h1

theorem TrimPrefix_sub (s pre : String) : (TrimPrefix s pre).data <:+: s.data := by
  unfold TrimPrefix
  split
  · exact (List.drop_suffix _ _).isInfix
  · exact List.infix_refl _

theorem ToLower_sub (lower : Char → Char) (s t : String) (h : s.data <:+: t.data) :
    (ToLower lower s).data <:+: (ToLower lower t).data :=
  List.IsInfix.map lower h

/-- With no remembered location only the prefix stripping can change the query. -/
theorem rewriteQuery_fresh (lower : Char → Char) (q : String) :
    rewriteQuery lower "" q =
      if (HasPrefix q "what about" || HasPrefix q "how about") = true then
        TrimSpace (TrimPrefix (TrimPrefix q "what about") "how about")
      else q := by
  have h0 : (("" : String) != "") = false := by decide
  unfold rewriteQuery
  simp only [h0, if_false, ite_self, Bool.and_false, Bool.false_and, Bool.false_eq_true]

/-- With no remembered location the rewritten query is cut out of the lower-cased query. -/
theorem rewriteQuery_fresh_sub (lower : Char → Char) (q : String) :
    (rewriteQuery lower "" q).data <:+: q.data := by
  rw [rewriteQuery_fresh]
  split
  · have h1 := TrimSpace_sub (TrimPrefix (TrimPrefix q "what about") "how about")
    have h2 := TrimPrefix_sub (TrimPrefix q "what about") "how about"
    have h3 := TrimPrefix_sub q "what about"
    exact h1.trans (h2.trans h3)
  · exact List.infix_refl _

theorem Join_cons_starts (x : String) (xs : List String) (sep : String) :
    x.data <+: (Join (x :: xs) sep).data := by
  cases xs with
  | nil => simp [Join]
  | cons y rest =>
    simp only [Join, String.data_append, List.append_assoc]
    exact List.prefix_append _ _

theorem gatherRecords_skip (L : String) (pre rest : List Record) (seen : List String)
    (h : ∀ x ∈ pre, x.Location ≠ L) :
    gatherRecords L (pre ++ rest) seen = gatherRecords L rest seen := by
  induction pre with
  | nil => rfl
  | cons x pre ih =>
    have hx := h x (List.mem_cons_self _ _)
    simp only [List.cons_append, gatherRecords, hx, false_and, if_false]
    exact ih (fun y hy => h y (List.mem_cons_of_mem _ hy))

/-- C2 (exact match), as amended.  In a session with no remembered location, let
the query be the `Location` of a record `r` of the store.  If that text is not a
memory-related query, its rewritten form has at least one token, and no record
before `r` has a lower-cased `Location` containing one of these tokens, then
`FindRelevantInfo` resolves to `r.Location`, and the main response contains
`formatRecordInfo r`, which for a tax record is the sentence
"According to <Source>, the tax rate in <Location> is <tax_rate>". -/
theorem exact_match_first (lower : Char → Char) (seed : List Nat) (now : Nat) (st : Session)
    (pre post : List Record) (r : Record)
    (hlast : st.lastLocation = "")
    (hm : isMemoryQuery (ToLower lower (TrimSpace r.Location)) = false)
    (htok : Fields (rewrittenQuery lower st r.Location) ≠ [])
    (hpre : ∀ x ∈ pre, ¬ MatchesToken lower (Fields (rewrittenQuery lower st r.Location)) x) :
    resolution lower st r.Location (pre ++ r :: post) =
        some (r.Location, rewrittenQuery lower st r.Location) ∧
      (FindRelevantInfo lower seed now st r.Location (pre ++ r :: post)).2.lastLocation =
        r.Location ∧
      Contains (FindRelevantInfo lower seed now st r.Location (pre ++ r :: post)).1.1
        (formatRecordInfo r) = true ∧
      (r.DataType = "tax" → formatRecordInfo r = taxSentence r) := by
  have hinf : (rewrittenQuery lower st r.Location).data <:+: (ToLower lower r.Location).data := by
    unfold rewrittenQuery
    rw [hlast]
    exact (rewriteQuery_fresh_sub lower _).trans
      (ToLower_sub lower _ _ (TrimSpace_sub r.Location))
  have hr : MatchesToken lower (Fields (rewrittenQuery lower st r.Location)) r := by
    obtain ⟨w, hw⟩ := List.exists_mem_of_ne_nil _ htok
    exact ⟨w, hw, (Fields_sub _ w hw).trans hinf⟩
  have hloc : ∀ x ∈ pre, x.Location ≠ r.Location := by
    intro x hx e
    apply hpre x hx
    obtain ⟨w, hw, hwi⟩ := hr
    exact ⟨w, hw, by rw [e]; exact hwi⟩
  obtain ⟨hL, hne⟩ := findLocation_first lower _ pre post r hr hpre
  obtain ⟨h1, h2, h3, _⟩ :=
    FindRelevantInfo_resolves lower seed now st r.Location (pre ++ r :: post) r.Location
      hm hL hne
  refine ⟨h1, h2, ?_, ?_⟩
  · rw [h3, Contains_iff, gatherInfo_eq_map, gatherRecords_skip _ _ _ _ hloc]
    simp only [gatherRecords, List.not_mem_nil, not_false_eq_true, and_self, if_true,
      List.map_cons]
    exact (Join_cons_starts _ _ _).isInfix
  · intro ht
    simp [formatRecordInfo, taxSentence, ht]

set_option maxRecDepth 100000 in
/-- Witness for C2: the query "Travis County" over the test store at process start. -/
theorem exact_match_first_witness :
    (FindRelevantInfo asciiLower [] 0 (initSession 5) "Travis County" testStore).2.lastLocation =
        "Travis County" ∧
      Contains (FindRelevantInfo asciiLower [] 0 (initSession 5) "Travis County" testStore).1.1
        "According to tax_policies_2023.pdf, the tax rate in Travis County is 1.9%" = true :=
  have h := exact_match_first asciiLower [] 0 (initSession 5) [] testStore.tail
    { Location := "Travis County", DataType := "tax", Values := [("tax_rate", "1.9%")],
      Source := "tax_policies_2023.pdf" } rfl (by decide) (by decide) (by simp)
  ⟨h.2.1, h.2.2.1⟩

set_option maxRecDepth 100000 in
/-- Counterexample to C2 as stated: at process start the query
"Williamson County", the exact `Location` of the second record of the test
store, resolves to "Travis County" (whose lower-cased name contains the token
"county"), and the main response holds Travis County's sentence, not
Williamson County's. -/
theorem exact_match_counterexample :
    (∃ r ∈ testStore, r.Location = "Williamson County" ∧ r.DataType = "tax" ∧
        taxSentence r =
          "According to tax_records_2023.csv, the tax rate in Williamson County is 2.1%") ∧
      (FindRelevantInfo asciiLower [] 0 (initSession 5) "Williamson County"
        testStore).2.lastLocation = "Travis County" ∧
      (FindRelevantInfo asciiLower [] 0 (initSession 5) "Williamson County" testStore).1.1 =
        "According to tax_policies_2023.pdf, the tax rate in Travis County is 1.9%" ∧
      Contains (FindRelevantInfo asciiLower [] 0 (initSession 5) "Williamson County"
          testStore).1.1
        "According to tax_records_2023.csv, the tax rate in Williamson County is 2.1%" = false := by
  refine ⟨⟨_, List.mem_cons_of_mem _ (List.mem_cons_self _ _), by decide⟩,
    by decide, by decide, by decide⟩


/-! ## Tokens of trimmed, lower-cased and concatenated text -/

theorem fieldsL_spaces (sp cur : List Char) (h : ∀ c ∈ sp, isSpace c = true) :
    fieldsL sp cur = fieldsL [] cur := by
  induction sp generalizing cur with
  | nil => rfl
  | cons c sp ih =>
    have hc := h c (List.mem_cons_self _ _)
    have ih0 := ih [] (fun d hd => h d (List.mem_cons_of_mem _ hd))
    simp only [fieldsL, hc, if_true, ih0]
    simp

theorem fieldsL_append_spaces (x sp cur : List Char) (h : ∀ c ∈ sp, isSpace c = true) :
    fieldsL (x ++ sp) cur = fieldsL x cur := by
  induction x generalizing cur with
  | nil => simpa using fieldsL_spaces sp cur h
  | cons c x ih =>
    simp only [List.cons_append, fieldsL, List.append_eq, ih]

theorem fieldsL_dropWhile (s : List Char) :
    fieldsL (s.dropWhile isSpace) [] = fieldsL s [] := by
  induction s with
  | nil => rfl
  | cons c s ih =>
    by_cases hc : isSpace c = true
    · rw [List.dropWhile_cons_of_pos hc, ih]
      simp [fieldsL, hc]
    · rw [List.dropWhile_cons_of_neg hc]

theorem trimRight_append (x : List Char) :
    (x.reverse.dropWhile isSpace).reverse ++ (x.reverse.takeWhile isSpace).reverse = x := by
  rw [← List.reverse_append, List.takeWhile_append_dropWhile, List.reverse_reverse]

theorem fieldsL_trimRight (x cur : List Char) :
    fieldsL (x.reverse.dropWhile isSpace).reverse cur = fieldsL x cur := by
  have h := fieldsL_append_spaces (x.reverse.dropWhile isSpace).reverse
    (x.reverse.takeWhile isSpace).reverse cur (by
      intro c hc
      exact List.mem_takeWhile_imp (List.mem_reverse.mp hc))
  rw [trimRight_append] at h
  exact h.symm

theorem Fields_TrimSpace (s : String) : Fields (TrimSpace s) = Fields s := by
  simp only [Fields, TrimSpace]
  rw [fieldsL_trimRight, fieldsL_dropWhile]

theorem fieldsL_map (f : Char → Char) (hf : ∀ c, isSpace (f c) = isSpace c)
    (s cur : List Char) :
    fieldsL (s.map f) (cur.map f) = (fieldsL s cur).map (List.map f) := by
  induction s generalizing cur with
  | nil =>
    cases cur <;> simp [fieldsL]
  | cons c s ih =>
    have ih0 := ih []
    simp only [List.map_nil] at ih0
    by_cases hc : isSpace c = true
    · cases cur with
      | nil => simp [fieldsL, hf, hc, ih0]
      | cons d cur => simp [fieldsL, hf, hc, ih0]
    · have := ih (cur ++ [c])
      simp only [List.map_append, List.map_cons, List.map_nil] at this
      simp [fieldsL, hf, hc, this]

theorem fieldsL_append_space (x y cur : List Char) (c : Char) (hc : isSpace c = true) :
    fieldsL (x ++ c :: y) cur = fieldsL x cur ++ fieldsL y [] := by
  induction x generalizing cur with
  | nil =>
    cases cur <;> simp [fieldsL, hc]
  | cons d x ih =>
    by_cases hd : isSpace d = true
    · cases cur <;> simp [fieldsL, hd, ih]
    · simp [fieldsL, hd, ih]

/-- Text with a rune that is not white space has a token. -/
theorem fieldsL_ne_nil_of_rune (s cur : List Char) (h : ∃ c ∈ s, isSpace c = false) :
    fieldsL s cur ≠ [] := by
  induction s generalizing cur with
  | nil => simp at h
  | cons d s ih =>
    by_cases hd : isSpace d = true
    · have hs : ∃ c ∈ s, isSpace c = false := by
        obtain ⟨c, hc, hcs⟩ := h
        rcases List.mem_cons.mp hc with e | e
        · subst e
          simp [hd] at hcs
        · exact ⟨c, e, hcs⟩
      cases cur with
      | nil => simpa [fieldsL, hd] using ih [] hs
      | cons e cur => simp [fieldsL, hd]
    · have hd0 : isSpace d = false := by simpa using hd
      simp only [fieldsL, hd0, Bool.false_eq_true, if_false]
      by_cases hs : ∃ c ∈ s, isSpace c = false
      · exact ih _ hs
      · have hall : ∀ c ∈ s, isSpace c = true := by
          intro c hc
          by_contra hn
          exact hs ⟨c, hc, by simpa using hn⟩
        rw [fieldsL_spaces s _ hall]
        simp [fieldsL]

theorem Fields_ToLower (lower : Char → Char) (hl : CaseMapping lower) (s : String) :
    Fields (ToLower lower s) = (Fields s).map (ToLower lower) := by
  have := fieldsL_map lower hl.space s.data []
  simp only [List.map_nil] at this
  simp only [Fields, ToLower, this, List.map_map]
  rfl


/-! ## The follow-up "what about <location>" -/

/-- The query "what about <B>" after trimming and lower-casing, when `B` has a
rune that is not white space. -/
theorem whatAbout_normalised (lower : Char → Char) (hl : CaseMapping lower) (B : String)
    (hB : ∃ c ∈ B.data, isSpace c = false) :
    (ToLower lower (TrimSpace ("what about " ++ B))).data =
      "what about ".data ++ (B.data.reverse.dropWhile isSpace).reverse.map lower := by
  have hne : B.data.reverse.dropWhile isSpace ≠ [] := by
    intro h0
    rw [List.dropWhile_eq_nil_iff] at h0
    obtain ⟨c, hc, hcs⟩ := hB
    have := h0 c (List.mem_reverse.mpr hc)
    simp [hcs] at this
  have hlit : ("what about ".data).map lower = "what about ".data := by
    have hall : ∀ c ∈ "what about ".data, c.toNat < 128 ∧ asciiLower c = c := by decide
    calc ("what about ".data).map lower = ("what about ".data).map id := by
          apply List.map_congr_left
          intro c hc
          rw [hl.ascii c (hall c hc).1, (hall c hc).2]
          rfl
      _ = "what about ".data := List.map_id _
  have hhead : ("what about ".data ++ B.data).dropWhile isSpace = "what about ".data ++ B.data := by
    rfl
  simp only [ToLower, TrimSpace, String.data_append, hhead, List.reverse_append]
  rw [List.dropWhile_append]
  have hemp : (B.data.reverse.dropWhile isSpace).isEmpty = false := by
    cases h : B.data.reverse.dropWhile isSpace with
    | nil => exact absurd h hne
    | cons a l => rfl
  simp only [hemp, Bool.false_eq_true, if_false, List.reverse_append, List.reverse_reverse,
    List.map_append, hlit]


theorem Fields_append_space (a b : String) : Fields (a ++ " " ++ b) = Fields a ++ Fields b := by
  have h : (a ++ " " ++ b).data = a.data ++ ' ' :: b.data := by
    simp only [String.data_append, List.append_assoc]
    rfl
  simp only [Fields, h, fieldsL_append_space a.data b.data [] ' ' (by decide), List.map_append]

/-- The words of the rewritten "what about <B>" query: the tokens of the
lower-cased `B`, with the tokens of the remembered location in front when the
short-query rule applies. -/
theorem whatAbout_words (lower : Char → Char) (hl : CaseMapping lower) (A B : String)
    (hB : ∃ c ∈ B.data, isSpace c = false)
    (ht : isTopicQuery (ToLower lower (TrimSpace ("what about " ++ B))) = false) :
    Fields (rewriteQuery lower A (ToLower lower (TrimSpace ("what about " ++ B)))) =
        Fields (ToLower lower B) ∨
      Fields (rewriteQuery lower A (ToLower lower (TrimSpace ("what about " ++ B)))) =
        Fields A ++ Fields (ToLower lower B) := by
  have hq : ToLower lower (TrimSpace ("what about " ++ B)) =
      ⟨"what about ".data ++ (B.data.reverse.dropWhile isSpace).reverse.map lower⟩ := by
    apply String.ext
    exact whatAbout_normalised lower hl B hB
  rw [hq] at ht ⊢
  have hlb : Fields (TrimSpace ⟨' ' :: (B.data.reverse.dropWhile isSpace).reverse.map lower⟩) =
      Fields (ToLower lower B) := by
    have h1 := fieldsL_map lower hl.space (B.data.reverse.dropWhile isSpace).reverse []
    have h2 := fieldsL_map lower hl.space B.data []
    simp only [List.map_nil] at h1 h2
    have h3 : fieldsL (' ' :: (B.data.reverse.dropWhile isSpace).reverse.map lower) [] =
        fieldsL ((B.data.reverse.dropWhile isSpace).reverse.map lower) [] := by
      have : isSpace ' ' = true := by decide
      simp [fieldsL, this]
    rw [Fields_TrimSpace]
    simp only [Fields, ToLower, h3, h1, h2, fieldsL_trimRight]
  generalize (B.data.reverse.dropWhile isSpace).reverse.map lower = lb at ht hlb ⊢
  have hstrip : (if (HasPrefix (String.mk ("what about ".data ++ lb)) "what about" ||
        HasPrefix (String.mk ("what about ".data ++ lb)) "how about") = true then
        TrimSpace (TrimPrefix (TrimPrefix (String.mk ("what about ".data ++ lb)) "what about")
          "how about")
      else String.mk ("what about ".data ++ lb)) = TrimSpace ⟨' ' :: lb⟩ := by
    rfl
  unfold rewriteQuery
  simp only [ht, Bool.false_eq_true, if_false, hstrip]
  split
  · right
    rw [Fields_append_space, hlb]
  · left
    exact hlb

theorem caseMapping_asciiLower : CaseMapping asciiLower := by
  refine ⟨fun c _ => rfl, ?_⟩
  intro c
  unfold asciiLower
  split
  · rename_i h
    obtain ⟨h1, h2⟩ := h
    have hc : isSpace c = false := by
      simp only [isSpace, Bool.or_eq_false_iff, Bool.and_eq_false_iff, beq_eq_false_iff_ne,
        decide_eq_false_iff_not]
      omega
    rw [hc]
    generalize c.toNat = n at h1 h2
    interval_cases n <;> decide
  · rfl

/-- C1 (follow-up rewriting), as amended.  Let `B` be the `Location` of a record
of the store, with a rune that is not white space and different from the
remembered location `A = lastLocation`.  If the query "what about <B>" is
neither a memory-related nor a topical query, and no record before `B`'s has a
lower-cased `Location` containing a token of `A` or of the lower-cased `B`,
then `FindRelevantInfo` resolves it to `B`: the main response is `B`'s facts,
the follow-up is the prompt for `B`, and `lastLocation` becomes `B`. -/
theorem follow_up_resolves_new_location (lower : Char → Char) (hl : CaseMapping lower)
    (seed : List Nat) (now : Nat) (st : Session) (pre post : List Record) (rB : Record)
    (hAB : st.lastLocation ≠ rB.Location)
    (hB : ∃ c ∈ rB.Location.data, isSpace c = false)
    (hm : isMemoryQuery (ToLower lower (TrimSpace ("what about " ++ rB.Location))) = false)
    (ht : isTopicQuery (ToLower lower (TrimSpace ("what about " ++ rB.Location))) = false)
    (hpre : ∀ x ∈ pre, ¬ MatchesToken lower
      (Fields st.lastLocation ++ Fields (ToLower lower rB.Location)) x) :
    (FindRelevantInfo lower seed now st ("what about " ++ rB.Location)
        (pre ++ rB :: post)).1 =
      (Join (gatherInfo rB.Location (pre ++ rB :: post) []) "\n", followUpPrompt rB.Location) ∧
    (FindRelevantInfo lower seed now st ("what about " ++ rB.Location)
        (pre ++ rB :: post)).2.lastLocation = rB.Location ∧
    resolution lower st ("what about " ++ rB.Location) (pre ++ rB :: post) =
      some (rB.Location, rewrittenQuery lower st ("what about " ++ rB.Location)) := by
  have hwords := whatAbout_words lower hl st.lastLocation rB.Location hB ht
  have htok : Fields (ToLower lower rB.Location) ≠ [] := by
    simp only [Fields, ToLower, ne_eq, List.map_eq_nil_iff]
    apply fieldsL_ne_nil_of_rune
    obtain ⟨c, hc, hcs⟩ := hB
    exact ⟨lower c, List.mem_map.mpr ⟨c, hc, rfl⟩, by rw [hl.space, hcs]⟩
  obtain ⟨w, hw⟩ := List.exists_mem_of_ne_nil _ htok
  have hwi := Fields_sub _ w hw
  have hsub : ∀ v ∈ Fields (rewrittenQuery lower st ("what about " ++ rB.Location)),
      v ∈ Fields st.lastLocation ++ Fields (ToLower lower rB.Location) := by
    intro v hv
    unfold rewrittenQuery at hv
    rcases hwords with e | e
    · rw [e] at hv
      exact List.mem_append_right _ hv
    · rw [e] at hv
      exact hv
  have hwmem : w ∈ Fields (rewrittenQuery lower st ("what about " ++ rB.Location)) := by
    unfold rewrittenQuery
    rcases hwords with e | e
    · rw [e]
      exact hw
    · rw [e]
      exact List.mem_append_right _ hw
  have hr : MatchesToken lower
      (Fields (rewrittenQuery lower st ("what about " ++ rB.Location))) rB := ⟨w, hwmem, hwi⟩
  have hpre2 : ∀ x ∈ pre, ¬ MatchesToken lower
      (Fields (rewrittenQuery lower st ("what about " ++ rB.Location))) x := by
    rintro x hx ⟨v, hv, hvi⟩
    exact hpre x hx ⟨v, hsub v hv, hvi⟩
  obtain ⟨hL, hne⟩ := findLocation_first lower _ pre post rB hr hpre2
  obtain ⟨h1, h2, _, _⟩ :=
    FindRelevantInfo_resolves lower seed now st ("what about " ++ rB.Location)
      (pre ++ rB :: post) rB.Location hm hL hne
  refine ⟨?_, h2, h1⟩
  rw [FindRelevantInfo_found lower seed now st ("what about " ++ rB.Location)
    (pre ++ rB :: post) rB.Location hm hL hne, if_pos (Ne.symm hAB)]

set_option maxRecDepth 100000 in
/-- Witness for C1: after "California" has been resolved, "what about Texas"
resolves to "Texas". -/
theorem follow_up_resolves_new_location_witness :
    afterCalifornia.lastLocation = "California" ∧
      (FindRelevantInfo asciiLower [] 2 afterCalifornia ("what about " ++ "Texas")
          stateStore).1 =
        ("According to state_taxes.csv, the tax rate in Texas is 6.25%", followUpPrompt "Texas") ∧
      (FindRelevantInfo asciiLower [] 2 afterCalifornia ("what about " ++ "Texas")
          stateStore).2.lastLocation = "Texas" :=
  have h := follow_up_resolves_new_location asciiLower caseMapping_asciiLower [] 2
    afterCalifornia
    [{ Location := "California", DataType := "tax", Values := [("tax_rate", "7.25%")],
       Source := "state_taxes.csv" }]
    [{ Location := "New York", DataType := "tax", Values := [("tax_rate", "4%")],
       Source := "state_taxes.csv" }]
    { Location := "Texas", DataType := "tax", Values := [("tax_rate", "6.25%")],
      Source := "state_taxes.csv" }
    (by decide) ⟨'T', by decide, by decide⟩ (by decide) (by decide)
    (fun x hx => (not_matchesToken_iff _ _ _).mpr (by
      simp only [List.mem_singleton] at hx
      subst hx
      decide))
  ⟨by decide, h.1.trans (by decide), h.2.1⟩

set_option maxRecDepth 100000 in
/-- Counterexample to C1 as stated: "Travis County" and "Williamson County" are
two distinct locations of the test store; after "Travis County" has been
resolved, the query "what about Williamson County" resolves to
"Travis County" again and returns Travis County's facts. -/
theorem follow_up_counterexample :
    (∃ a ∈ testStore, a.Location = "Travis County") ∧
      (∃ b ∈ testStore, b.Location = "Williamson County") ∧
      afterTravisCounty.lastLocation = "Travis County" ∧
      (FindRelevantInfo asciiLower [] 2 afterTravisCounty ("what about " ++ "Williamson County")
          testStore).1 =
        ("According to tax_policies_2023.pdf, the tax rate in Travis County is 1.9%", "") ∧
      (FindRelevantInfo asciiLower [] 2 afterTravisCounty ("what about " ++ "Williamson County")
          testStore).2.lastLocation = "Travis County" := by
  refine ⟨⟨_, List.mem_cons_self _ _, rfl⟩,
    ⟨_, List.mem_cons_of_mem _ (List.mem_cons_self _ _), rfl⟩, by decide, by decide, by decide⟩

/-! ## The follow-up prompt -/

theorem followUpPrompt_ne_empty (L : String) : followUpPrompt L ≠ "" := by
  intro h
  have := congrArg String.data h
  simp only [followUpPrompt, String.data_append] at this
  exact absurd this (by simp)

/-- The follow-up returned by a call, in terms of what the call resolves. -/
theorem FindRelevantInfo_followUp (lower : Char → Char) (seed : List Nat) (now : Nat)
    (st : Session) (query : String) (records : List Record) :
    (FindRelevantInfo lower seed now st query records).1.2 =
      match resolution lower st query records with
      | some (location, _) => if location ≠ st.lastLocation then followUpPrompt location else ""
      | none => "" := by
  by_cases hm : isMemoryQuery (ToLower lower (TrimSpace query)) = true
  · rw [FindRelevantInfo_memory lower seed now st query records hm]
    simp [resolution, hm]
  · have hm0 : isMemoryQuery (ToLower lower (TrimSpace query)) = false := by simpa using hm
    by_cases hL : findLocation lower (Fields (rewrittenQuery lower st query)) records = ""
    · rw [FindRelevantInfo_miss lower seed now st query records hm0 hL,
        resolution_eq lower st query records hm0]
      simp [hL]
    · rw [FindRelevantInfo_found lower seed now st query records _ hm0 rfl hL,
        resolution_eq lower st query records hm0]
      simp only [hL, ne_eq, not_false_eq_true, if_true]
      rfl


/-- C11 (follow-up prompt only on location change).  The follow-up returned by
`FindRelevantInfo` is non-empty exactly when a location is resolved that
differs from the prior `lastLocation`; it is then the prompt naming that
location and the three topics, and it is empty when the resolved location is
the prior `lastLocation`. -/
theorem follow_up_only_on_change (lower : Char → Char) (seed : List Nat) (now : Nat)
    (st : Session) (query : String) (records : List Record) :
    ((FindRelevantInfo lower seed now st query records).1.2 ≠ "" ↔
        ∃ L question, resolution lower st query records = some (L, question) ∧
          L ≠ st.lastLocation) ∧
      (∀ L question, resolution lower st query records = some (L, question) →
        L ≠ st.lastLocation →
        (FindRelevantInfo lower seed now st query records).1.2 =
          "\nWould you like to know more about " ++ L ++ "? You can ask about:\n" ++
          "- Tourist attractions and best time to visit\n" ++
          "- Average daily costs and expenses\n" ++
          "- Tax rates and financial information") ∧
      (∀ L question, resolution lower st query records = some (L, question) →
        L = st.lastLocation →
        (FindRelevantInfo lower seed now st query records).1.2 = "") := by
  rw [FindRelevantInfo_followUp]
  refine ⟨?_, ?_, ?_⟩
  · cases h : resolution lower st query records with
    | none => simp
    | some p =>
      obtain ⟨L, question⟩ := p
      by_cases hc : L = st.lastLocation
      · simp [hc]
      · simp [hc, followUpPrompt_ne_empty]
  · intro L question h hc
    rw [h]
    simp only [ne_eq, hc, not_false_eq_true, if_true]
    rfl
  · intro L question h hc
    rw [h]
    simp [hc]

set_option maxRecDepth 100000 in
/-- Witness for C11: after "Travis County", the query "Heights" changes the
location and gets the prompt, the query "Travis County" repeats it and gets none. -/
theorem follow_up_only_on_change_witness :
    (FindRelevantInfo asciiLower [] 2 afterTravisCounty "Heights" testStore).1.2 =
        "\nWould you like to know more about " ++ "Travis Heights" ++ "? You can ask about:\n" ++
          "- Tourist attractions and best time to visit\n" ++
          "- Average daily costs and expenses\n" ++
          "- Tax rates and financial information" ∧
      (FindRelevantInfo asciiLower [] 2 afterTravisCounty "Travis County" testStore).1.2 = "" :=
  ⟨(follow_up_only_on_change asciiLower [] 2 afterTravisCounty "Heights" testStore).2.1
      "Travis Heights" "Travis County heights" (by decide) (by decide),
   (follow_up_only_on_change asciiLower [] 2 afterTravisCounty "Travis County" testStore).2.2
      "Travis County" "travis county" (by decide) (by decide)⟩

/-! ## Memory recall -/

theorem isMemoryQuery_iff (q : String) : isMemoryQuery q = true ↔ IsRecallText q := by
  simp only [isMemoryQuery, IsRecallText, Bool.or_eq_true, Bool.and_eq_true, Contains_iff,
    or_assoc]

/-- C12 (memory-recall short-circuit).  When the trimmed, lower-cased query
contains "previous", "history", "locations" or "remember", or both "which" and
"ask", `FindRelevantInfo` returns the memory summary with an empty follow-up,
resolves no location and leaves the session (`lastLocation` and the memory)
unchanged, whatever the store holds. -/
theorem memory_recall_short_circuit (lower : Char → Char) (seed : List Nat) (now : Nat)
    (st : Session) (query : String) (records : List Record)
    (h : IsRecallText (ToLower lower (TrimSpace query))) :
    FindRelevantInfo lower seed now st query records = ((getMemoryInfo seed st, ""), st) ∧
      resolution lower st query records = none := by
  have hm := (isMemoryQuery_iff _).mpr h
  refine ⟨FindRelevantInfo_memory lower seed now st query records hm, ?_⟩
  simp [resolution, hm]

set_option maxRecDepth 100000 in
/-- Witness for C12: "History of Williamson County" names a location of the
test store and is answered from the memory all the same. -/
theorem memory_recall_short_circuit_witness :
    IsRecallText (ToLower asciiLower (TrimSpace "History of Williamson County")) ∧
      FindRelevantInfo asciiLower [] 2 afterTravisCounty "History of Williamson County"
          testStore =
        (("Recent locations you've asked about:\n\nUnique locations discussed:\n" ++
            "- Travis County\n\nMost recent query was about: Travis County\n", ""),
          afterTravisCounty) :=
  have hr : IsRecallText (ToLower asciiLower (TrimSpace "History of Williamson County")) :=
    (isMemoryQuery_iff _).mp (by decide)
  ⟨hr, (memory_recall_short_circuit asciiLower [] 2 afterTravisCounty
      "History of Williamson County" testStore hr).1.trans (by decide)⟩

/-! ## Letter case -/

theorem ToLower_TrimSpace (lower : Char → Char) (hsp : ∀ c, isSpace (lower c) = isSpace c)
    (q : String) : ToLower lower (TrimSpace q) = TrimSpace (ToLower lower q) := by
  have hcomp : isSpace ∘ lower = isSpace := funext hsp
  apply String.ext
  simp only [ToLower, TrimSpace]
  rw [List.dropWhile_map, hcomp, ← List.map_reverse, List.dropWhile_map, hcomp,
    List.map_reverse]

/-- C13 (case-insensitive matching).  Two queries with the same lower-cased
text, that is, differing only in letter case, get the same main response and
follow-up and leave the same session (`lastLocation` and recorded
interaction) behind. -/
theorem case_insensitive_matching (lower : Char → Char)
    (hsp : ∀ c, isSpace (lower c) = isSpace c) (seed : List Nat) (now : Nat) (st : Session)
    (q1 q2 : String) (records : List Record) (h : ToLower lower q1 = ToLower lower q2) :
    FindRelevantInfo lower seed now st q1 records =
      FindRelevantInfo lower seed now st q2 records := by
  have h' : ToLower lower (TrimSpace q1) = ToLower lower (TrimSpace q2) := by
    rw [ToLower_TrimSpace lower hsp, ToLower_TrimSpace lower hsp, h]
  unfold FindRelevantInfo
  rw [h']

set_option maxRecDepth 100000 in
/-- Witness for C13: "Travis" and "TRAVIS" over the test store. -/
theorem case_insensitive_matching_witness :
    ToLower asciiLower "Travis" = ToLower asciiLower "TRAVIS" ∧
      FindRelevantInfo asciiLower [] 0 (initSession 5) "Travis" testStore =
        FindRelevantInfo asciiLower [] 0 (initSession 5) "TRAVIS" testStore ∧
      (FindRelevantInfo asciiLower [] 0 (initSession 5) "TRAVIS" testStore).1.1 =
        "According to tax_policies_2023.pdf, the tax rate in Travis County is 1.9%" :=
  ⟨by decide,
   case_insensitive_matching asciiLower caseMapping_asciiLower.space [] 0 (initSession 5)
    "Travis" "TRAVIS" testStore (by decide),
   by decide⟩


/-! ## Recording and misses -/

/-- C14 (interaction recorded on every successful resolution).  When
`FindRelevantInfo` resolves a location `L`, new or repeated, the memory
afterwards is one interaction for `L` in front of the old memory (cut at the
tail to the capacity, which is at least one), and `lastLocation` is `L`. -/
theorem interaction_recorded (lower : Char → Char) (seed : List Nat) (now : Nat)
    (st : Session) (query : String) (records : List Record) (L question : String)
    (hres : resolution lower st query records = some (L, question))
    (hcap : 0 < st.memorySize) :
    (FindRelevantInfo lower seed now st query records).2.interactions =
        ({ Location := L, Question := question, Timestamp := now } : Interaction) ::
          st.interactions.take (st.memorySize - 1) ∧
      (st.interactions.length < st.memorySize →
        (FindRelevantInfo lower seed now st query records).2.interactions =
          ({ Location := L, Question := question, Timestamp := now } : Interaction) ::
            st.interactions) ∧
      (FindRelevantInfo lower seed now st query records).2.lastLocation = L := by
  have h1 : (FindRelevantInfo lower seed now st query records).2.interactions =
      ({ Location := L, Question := question, Timestamp := now } : Interaction) ::
        st.interactions.take (st.memorySize - 1) := by
    rw [FindRelevantInfo_interactions, hres]
    obtain ⟨m, hm⟩ : ∃ m, st.memorySize = m + 1 := ⟨st.memorySize - 1, by omega⟩
    simp only [hm, List.take_succ_cons, Nat.add_sub_cancel]
  refine ⟨h1, ?_, ?_⟩
  · intro hlen
    rw [h1, List.take_of_length_le (by omega)]
  · rw [FindRelevantInfo_session, hres]
    simp [addInteraction_lastLocation]

set_option maxRecDepth 100000 in
/-- Witness for C14: after "Travis County", the same location asked again is recorded again. -/
theorem interaction_recorded_witness :
    resolution asciiLower afterTravisCounty "Travis County" testStore =
        some ("Travis County", "travis county") ∧
      (FindRelevantInfo asciiLower [] 2 afterTravisCounty "Travis County"
          testStore).2.interactions =
        [{ Location := "Travis County", Question := "travis county", Timestamp := 2 },
         { Location := "Travis County", Question := "travis county", Timestamp := 1 }] ∧
      (FindRelevantInfo asciiLower [] 2 afterTravisCounty "Travis County"
          testStore).2.lastLocation = "Travis County" :=
  have h := interaction_recorded asciiLower [] 2 afterTravisCounty "Travis County" testStore
    "Travis County" "travis county" (by decide) (by decide)
  ⟨by decide, h.1.trans (by decide), h.2.2⟩

theorem assumeMessage_starts (lastLocation : String) :
    ("I assume you're asking about " ++ lastLocation).data <+: (assumeMessage lastLocation).data := by
  simp only [assumeMessage, String.data_append, List.append_assoc]
  exact List.prefix_append _ _

/-- C16 (resolution miss with prior context).  For a query that is not
memory-related and resolves no location, with a non-empty `lastLocation`,
`FindRelevantInfo` returns the guidance that begins
"I assume you're asking about <lastLocation>", an empty follow-up, and the
session unchanged. -/
theorem miss_with_prior_context (lower : Char → Char) (seed : List Nat) (now : Nat)
    (st : Session) (query : String) (records : List Record)
    (hm : isMemoryQuery (ToLower lower (TrimSpace query)) = false)
    (hres : resolution lower st query records = none)
    (hlast : st.lastLocation ≠ "") :
    FindRelevantInfo lower seed now st query records =
        ((assumeMessage st.lastLocation, ""), st) ∧
      ("I assume you're asking about " ++ st.lastLocation).data <+:
        (FindRelevantInfo lower seed now st query records).1.1.data := by
  have hL := resolution_none lower st query records hm hres
  have h : FindRelevantInfo lower seed now st query records =
      ((assumeMessage st.lastLocation, ""), st) := by
    rw [FindRelevantInfo_miss lower seed now st query records hm hL, if_pos hlast]
  refine ⟨h, ?_⟩
  rw [h]
  exact assumeMessage_starts _

set_option maxRecDepth 100000 in
/-- Witness for C16: "Dallas" after "Travis County" has been resolved. -/
theorem miss_with_prior_context_witness :
    resolution asciiLower afterTravisCounty "Dallas" testStore = none ∧
      afterTravisCounty.lastLocation = "Travis County" ∧
      FindRelevantInfo asciiLower [] 2 afterTravisCounty "Dallas" testStore =
        (("I assume you're asking about Travis County, but I don't have that specific " ++
            "information. Try asking about:\n- Tourist attractions and best time to visit\n" ++
            "- Average daily costs and expenses\n- Tax rates and financial information", ""),
          afterTravisCounty) :=
  ⟨by decide, by decide,
   (miss_with_prior_context asciiLower [] 2 afterTravisCounty "Dallas" testStore
      (by decide) (by decide) (by decide)).1.trans (by decide)⟩

set_option maxRecDepth 100000 in
/-- C15 (topical follow-up), failing input.  With `lastLocation = "Travis County"`
the query "how much does it cost there" is rewritten to
"Travis County how much does it cost there"; the words "Travis" and "County"
keep their capitals and occur in no lower-cased location, so no location is
resolved and the guidance for a miss is returned, not Travis County's facts. -/
theorem topical_follow_up_misses :
    afterTravisCounty.lastLocation = "Travis County" ∧
      isTopicQuery (ToLower asciiLower (TrimSpace "how much does it cost there")) = true ∧
      rewrittenQuery asciiLower afterTravisCounty "how much does it cost there" =
        "Travis County how much does it cost there" ∧
      resolution asciiLower afterTravisCounty "how much does it cost there" testStore = none ∧
      FindRelevantInfo asciiLower [] 2 afterTravisCounty "how much does it cost there"
          testStore =
        ((assumeMessage "Travis County", ""), afterTravisCounty) ∧
      (FindRelevantInfo asciiLower [] 2 afterTravisCounty "Travis County" testStore).1.1 =
        "According to tax_policies_2023.pdf, the tax rate in Travis County is 1.9%" := by
  refine ⟨by decide, by decide, by decide, by decide, by decide, by decide⟩


/-- C17 (memory recall summary).  With an empty memory `getMemoryInfo` returns
exactly "You haven't asked about any locations yet.".  Otherwise it returns the
header, then one line "- <location>" for each distinct location of the stored
interactions, each exactly once in the order the map yields them, and as last
line "Most recent query was about: <location of the newest interaction>". -/
theorem memory_summary (seed : List Nat) (st : Session) :
    (st.interactions = [] →
        getMemoryInfo seed st = "You haven't asked about any locations yet.") ∧
      (∀ newest older, st.interactions = newest :: older →
        ∃ locations : List String,
          locations.Nodup ∧
          (∀ x, x ∈ locations ↔ ∃ i ∈ st.interactions, i.Location = x) ∧
          getMemoryInfo seed st =
            "Recent locations you've asked about:\n" ++ "\nUnique locations discussed:\n" ++
            String.join (locations.map (fun location => "- " ++ location ++ "\n")) ++
            "\nMost recent query was about: " ++ newest.Location ++ "\n") := by
  constructor
  · intro h
    simp [getMemoryInfo, h]
  · intro newest older h
    refine ⟨mapOrder seed (mapKeys (st.interactions.map (fun (i : Interaction) => i.Location))),
      ?_, ?_, ?_⟩
    · exact (mapOrder_perm seed _).nodup_iff.mpr (nodup_mapKeys _)
    · intro x
      rw [(mapOrder_perm seed _).mem_iff, mem_mapKeys]
      simp
    · simp only [getMemoryInfo, h]

set_option maxRecDepth 100000 in
/-- Witness for C17: the summary at process start and after three resolutions,
two of them of the same location. -/
theorem memory_summary_witness :
    getMemoryInfo [] (initSession 5) = "You haven't asked about any locations yet." ∧
      getMemoryInfo [1] (runCalls asciiLower (initSession 5) testCallsBeforeNoMatch) =
        "Recent locations you've asked about:\n\nUnique locations discussed:\n" ++
          "- Travis County\n\nMost recent query was about: Travis County\n" ∧
      getMemoryInfo [1] (runCalls asciiLower (initSession 5) overflowCalls) =
        "Recent locations you've asked about:\n\nUnique locations discussed:\n" ++
          "- Williamson County\n- Travis County\n- Travis Heights\n" ++
          "\nMost recent query was about: Travis Heights\n" :=
  ⟨(memory_summary [] (initSession 5)).1 rfl, by decide, by decide⟩


/-! ## Validation of records -/

theorem validateField_forbidden (field : String) (h : HasForbiddenContent field) :
    ∃ msg, validateField field = some msg := by
  unfold validateField
  split
  · exact ⟨_, rfl⟩
  · split
    · exact ⟨_, rfl⟩
    · split
      · exact ⟨_, rfl⟩
      · split
        · exact ⟨_, rfl⟩
        · rename_i h1 h2 h3 h4
          exfalso
          simp only [Bool.or_eq_true, not_or, Contains_iff] at h1 h2 h3
          rcases h with h | h | h | h | h | h
          · exact h1 h
          · exact h2.1 h
          · exact h2.2 h
          · exact h3.1 h
          · exact h3.2 h
          · exact h4 h

theorem validateRecord_of_field (record : List String) (field : String) (hf : field ∈ record)
    (h : ∃ msg, validateField field = some msg) : ∃ msg, validateRecord record = some msg := by
  induction record with
  | nil => simp at hf
  | cons g rest ih =>
    unfold validateRecord
    cases hg : validateField g with
    | some e => exact ⟨e, rfl⟩
    | none =>
      rcases List.mem_cons.mp hf with e | e
      · subst e
        obtain ⟨msg, hmsg⟩ := h
        rw [hg] at hmsg
        exact absurd hmsg (by simp)
      · exact ih e

/-- The error of a record is that of its first failing field. -/
theorem validateRecord_first (fpre fpost : List String) (f : String) (msg : String)
    (hpre : ∀ g ∈ fpre, validateField g = none) (hf : validateField f = some msg) :
    validateRecord (fpre ++ f :: fpost) = some msg := by
  induction fpre with
  | nil => simp [validateRecord, hf]
  | cons g rest ih =>
    have hg := hpre g (List.mem_cons_self _ _)
    simp only [List.cons_append, validateRecord, hg]
    exact ih (fun x hx => hpre x (List.mem_cons_of_mem _ hx))

theorem loadRows_step (dataType : String) (headers record : List String)
    (rows : List (List String)) (i : Nat) (result : List Record)
    (hne : record ≠ []) (hv : validateRecord record = none) :
    ∃ r : Record, loadRows dataType headers (record :: rows) i result =
      loadRows dataType headers rows (i + 1) (result ++ [r]) := by
  cases record with
  | nil => exact absurd rfl hne
  | cons f fs =>
    have hl : ∃ l, (f :: fs).getLast? = some l := by
      cases h : (f :: fs).getLast? with
      | none => simp at h
      | some l => exact ⟨l, rfl⟩
    obtain ⟨l, hl⟩ := hl
    refine ⟨{ Location := f, DataType := dataType,
              Values := buildValues headers (f :: fs) [], Source := l }, ?_⟩
    rw [loadRows]
    simp only [hv, List.head?_cons, hl]

/-- The loop stops at the first row that fails validation, with its row number. -/
theorem loadRows_first_invalid (dataType : String) (headers : List String)
    (pre post : List (List String)) (bad : List String) (msg : String) (i : Nat)
    (result : List Record)
    (hpre : ∀ r ∈ pre, r ≠ [] ∧ validateRecord r = none)
    (hbad : validateRecord bad = some msg) :
    loadRows dataType headers (pre ++ bad :: post) i result =
      .error ("invalid data at row " ++ toString (i + pre.length + 1) ++ ": " ++ msg) := by
  induction pre generalizing i result with
  | nil => simp [loadRows, hbad]
  | cons r rest ih =>
    obtain ⟨hne, hv⟩ := hpre r (List.mem_cons_self _ _)
    obtain ⟨rec, hstep⟩ := loadRows_step dataType headers r (rest ++ bad :: post) i result hne hv
    rw [List.cons_append, hstep, ih _ _ (fun x hx => hpre x (List.mem_cons_of_mem _ hx))]
    simp only [List.length_cons]
    have : i + 1 + rest.length + 1 = i + (rest.length + 1) + 1 := by omega
    rw [this]

theorem loadRows_invalid (dataType : String) (headers : List String)
    (rows : List (List String)) (i : Nat) (result : List Record)
    (hne : ∀ r ∈ rows, r ≠ [])
    (hbad : ∃ r ∈ rows, ∃ msg, validateRecord r = some msg) :
    ∃ msg, loadRows dataType headers rows i result = .error msg := by
  induction rows generalizing i result with
  | nil => simp at hbad
  | cons r rest ih =>
    cases hv : validateRecord r with
    | some e =>
      exact ⟨"invalid data at row " ++ toString (i + 1) ++ ": " ++ e, by simp [loadRows, hv]⟩
    | none =>
      obtain ⟨rec, hstep⟩ :=
        loadRows_step dataType headers r rest i result (hne r (List.mem_cons_self _ _)) hv
      rw [hstep]
      apply ih _ _ (fun x hx => hne x (List.mem_cons_of_mem _ hx))
      obtain ⟨b, hb, msg, hmsg⟩ := hbad
      rcases List.mem_cons.mp hb with e | e
      · subst e
        rw [hv] at hmsg
        exact absurd hmsg (by simp)
      · exact ⟨b, e, msg, hmsg⟩

/-- What `LoadData` does once the path is accepted and the file is parsed into
a header row and data rows. -/
theorem LoadData_rows (files : String → Source) (filePath dataType : String)
    (headers row : List String) (rows : List (List String))
    (hpath : validateFilePath filePath = none)
    (hfile : files filePath = .rows (headers :: row :: rows)) :
    LoadData files filePath dataType = loadRows dataType headers (row :: rows) 1 [] := by
  simp [LoadData, hpath, hfile]

theorem LoadData_refused (files : String → Source) (filePath dataType msg : String)
    (hpath : validateFilePath filePath = some msg) :
    LoadData files filePath dataType = .error msg := by
  simp [LoadData, hpath]


/-- C18 (record validation), as amended.  If a field of a record contains a
null byte, `$`, a backtick, "../" or "..\", or is longer than 1024 bytes,
`validateRecord` returns an error; and `LoadData` returns an error for every
source whose parsed data rows include that record. -/
theorem validateRecord_rejects (record : List String)
    (h : ∃ field ∈ record, HasForbiddenContent field) :
    (∃ msg, validateRecord record = some msg) ∧
      ∀ (files : String → Source) (filePath dataType : String) (headers : List String)
        (rows : List (List String)),
        files filePath = .rows (headers :: rows) → record ∈ rows → (∀ r ∈ rows, r ≠ []) →
        ∃ msg, LoadData files filePath dataType = .error msg := by
  have hrec : ∃ msg, validateRecord record = some msg := by
    obtain ⟨field, hf, hbad⟩ := h
    exact validateRecord_of_field record field hf (validateField_forbidden field hbad)
  refine ⟨hrec, ?_⟩
  intro files filePath dataType headers rows hfile hmem hne
  cases hpath : validateFilePath filePath with
  | some e => exact ⟨e, LoadData_refused files filePath dataType e hpath⟩
  | none =>
    cases rows with
    | nil => simp at hmem
    | cons row rest =>
      rw [LoadData_rows files filePath dataType headers row rest hpath hfile]
      exact loadRows_invalid dataType headers (row :: rest) 1 [] hne ⟨record, hmem, hrec⟩

set_option maxRecDepth 100000 in
/-- Witness for C18: the null-byte row of "Null Byte Injection". -/
theorem validateRecord_rejects_witness :
    validateRecord ["Travis\x00County", "1.0%", "malicious.txt"] =
        some "invalid character in field" ∧
      ∃ msg, LoadData
        (filesWith [["location", "tax_rate", "source"],
          ["Travis\x00County", "1.0%", "malicious.txt"]])
        "data/test/malicious_Null Byte Injection.csv" "test" = .error msg :=
  have h := validateRecord_rejects ["Travis\x00County", "1.0%", "malicious.txt"]
    ⟨"Travis\x00County", List.mem_cons_self _ _,
      Or.inl ((Contains_iff _ _).mp (by decide))⟩
  ⟨by decide,
   h.2 _ "data/test/malicious_Null Byte Injection.csv" "test" ["location", "tax_rate", "source"]
    [["Travis\x00County", "1.0%", "malicious.txt"]] rfl (List.mem_cons_self _ _)
    (by simp)⟩

set_option maxRecDepth 100000 in
/-- Counterexample to C18 as stated: the field "Travis\x07County" contains the
control character U+0007, yet `validateRecord` accepts the record and
`LoadData` loads the source. -/
theorem control_character_accepted :
    (∃ c ∈ "Travis\x07County".data, isControl c = true) ∧
      validateRecord ["Travis\x07County", "1.0%", "malicious.txt"] = none ∧
      LoadData (filesWith bellRows) "data/test/bell.csv" "test" =
        .records [{ Location := "Travis\x07County", DataType := "test",
                    Values := [("tax_rate", "1.0%")], Source := "malicious.txt" }] := by
  refine ⟨⟨Char.ofNat 7, by decide, by decide⟩, by decide, by decide⟩

/-- C19 (invalid row is fatal and located).  For a source accepted by the path
check and parsed into a header row and data rows, let `bad` be the first data
row that fails `validateRecord` and `f` its first failing field.  `LoadData`
returns no records but the error "invalid data at row k: <message>", where `k`
counts the rows from 1 with the header as row 1, and the message is that of
the first failing check of `f`: "invalid character in field" for a null byte,
`$` or a backtick, and otherwise "invalid character in path" for "../". -/
theorem invalid_row_located (files : String → Source) (filePath dataType : String)
    (headers : List String) (pre post : List (List String))
    (fpre fpost : List String) (f msg : String)
    (hpath : validateFilePath filePath = none)
    (hfile : files filePath = .rows (headers :: (pre ++ (fpre ++ f :: fpost) :: post)))
    (hpre : ∀ r ∈ pre, r ≠ [] ∧ validateRecord r = none)
    (hfpre : ∀ g ∈ fpre, validateField g = none)
    (hf : validateField f = some msg) :
    LoadData files filePath dataType =
        .error ("invalid data at row " ++ toString (pre.length + 2) ++ ": " ++ msg) ∧
      validateRecord (fpre ++ f :: fpost) = some msg ∧
      (Contains f "\x00" = true ∨ Contains f "$" = true ∨ Contains f "`" = true →
        msg = "invalid character in field") ∧
      (Contains f "\x00" = false → Contains f "$" = false → Contains f "`" = false →
        Contains f "../" = true → msg = "invalid character in path") := by
  have hbad := validateRecord_first fpre fpost f msg hfpre hf
  refine ⟨?_, hbad, ?_, ?_⟩
  · have hload : LoadData files filePath dataType =
        loadRows dataType headers (pre ++ (fpre ++ f :: fpost) :: post) 1 [] := by
      cases pre with
      | nil => exact LoadData_rows files filePath dataType headers _ post hpath hfile
      | cons r rest =>
        exact LoadData_rows files filePath dataType headers r _ hpath hfile
    rw [hload, loadRows_first_invalid dataType headers pre post _ msg 1 [] hpre hbad]
    have : 1 + pre.length + 1 = pre.length + 2 := by omega
    rw [this]
  · intro h
    unfold validateField at hf
    rcases h with h | h | h
    · simp only [h, if_true, Option.some.injEq] at hf
      exact hf.symm
    · split at hf
      · simp only [Option.some.injEq] at hf
        exact hf.symm
      · simp only [h, Bool.true_or, if_true, Option.some.injEq] at hf
        exact hf.symm
    · split at hf
      · simp only [Option.some.injEq] at hf
        exact hf.symm
      · simp only [h, Bool.or_true, if_true, Option.some.injEq] at hf
        exact hf.symm
  · intro h0 h1 h2 h3
    unfold validateField at hf
    simp only [h0, h1, h2, h3, Bool.false_eq_true, if_false, Bool.or_self, Bool.true_or,
      if_true, Option.some.injEq] at hf
    exact hf.symm

set_option maxRecDepth 100000 in
/-- Witness for C19: the traversal row of the test as row 2, and an injection row as row 3. -/
theorem invalid_row_located_witness :
    LoadData (filesWith traversalRows) "data/test/malicious_Path Traversal Attempt.csv" "test" =
        .error "invalid data at row 2: invalid character in path" ∧
      LoadData (filesWith injectionRows) "data/test/malicious_Command Injection Attempt.csv"
          "test" = .error "invalid data at row 3: invalid character in field" :=
  ⟨((invalid_row_located (filesWith traversalRows)
        "data/test/malicious_Path Traversal Attempt.csv" "test"
        ["location", "tax_rate", "source"] [] [] [] ["1.0%", "malicious.txt"]
        "../../../etc/passwd" "invalid character in path" (by decide) rfl (by simp) (by simp)
        (by decide)).1).trans (by decide),
   ((invalid_row_located (filesWith injectionRows)
        "data/test/malicious_Command Injection Attempt.csv" "test"
        ["location", "tax_rate", "source"] [["Travis County", "1.9%", "tax_policies_2023.pdf"]]
        [] [] ["1.0%", "malicious.txt"]
        "$(rm -rf /)" "invalid character in field" (by decide) rfl
        (by
          intro r hr
          simp only [List.mem_singleton] at hr
          subst hr
          exact ⟨by simp, by decide⟩)
        (by simp) (by decide)).1).trans (by decide)⟩


/-! ## Validation of paths -/

/-- C20 (path validation), as amended.  `validateFilePath` returns an error for
every path that is absolute, or whose extension is not ".csv", or whose cleaned
form (`filepath.Clean`) contains "..", or that contains `$` or a backtick, or
whose base name starts with ".", or that contains "://"; `LoadData` returns
that error whatever the file system holds. -/
theorem validateFilePath_rejects (path : String) (h : IsRefusedPath path) :
    ∃ msg, validateFilePath path = some msg ∧
      ∀ (files : String → Source) (dataType : String),
        LoadData files path dataType = .error msg := by
  have hv : ∃ msg, validateFilePath path = some msg := by
    unfold validateFilePath
    split
    · exact ⟨_, rfl⟩
    · split
      · exact ⟨_, rfl⟩
      · split
        · exact ⟨_, rfl⟩
        · split
          · exact ⟨_, rfl⟩
          · split
            · exact ⟨_, rfl⟩
            · split
              · exact ⟨_, rfl⟩
              · rename_i h1 h2 h3 h4 h5 h6
                exfalso
                simp only [Bool.or_eq_true, not_or, Contains_iff] at h3 h4 h6
                rcases h with h | h | h | h | h | h | h
                · exact h1 ((hasPrefixL_iff _ _).mpr h)
                · exact h2 h
                · exact h3 h
                · exact h4.1 h
                · exact h4.2 h
                · exact h5 ((hasPrefixL_iff _ _).mpr h)
                · exact h6 h
  obtain ⟨msg, hmsg⟩ := hv
  exact ⟨msg, hmsg, fun files dataType => LoadData_refused files path dataType msg hmsg⟩

set_option maxRecDepth 100000 in
/-- Witness for C20: the two paths of `TestPathValidation` with their messages. -/
theorem validateFilePath_rejects_witness :
    IsRefusedPath "../../../etc/shadow.csv" ∧
      validateFilePath "../../../etc/shadow.csv" =
        some "invalid path: directory traversal not allowed" ∧
      validateFilePath "$(rm -rf /).csv" = some "invalid character in field" ∧
      ∃ msg, validateFilePath "../../../etc/shadow.csv" = some msg ∧
        ∀ (files : String → Source) (dataType : String),
          LoadData files "../../../etc/shadow.csv" dataType = .error msg :=
  have hr : IsRefusedPath "../../../etc/shadow.csv" :=
    Or.inr (Or.inr (Or.inl ((Contains_iff _ _).mp (by decide))))
  ⟨hr, by decide, by decide, validateFilePath_rejects "../../../etc/shadow.csv" hr⟩

set_option maxRecDepth 100000 in
/-- Counterexample to C20 as stated: "data/../taxes.csv" has the path element
"..", which `filepath.Clean` removes together with "data", and the path is
accepted. -/
theorem inner_dotdot_accepted :
    ['.', '.'] ∈ splitPath "data/../taxes.csv".data [] ∧
      Clean "data/../taxes.csv" = "taxes.csv" ∧
      validateFilePath "data/../taxes.csv" = none ∧
      LoadData (filesWith [["location", "tax_rate", "source"],
          ["Travis County", "1.9%", "tax_policies_2023.pdf"]]) "data/../taxes.csv" "tax" =
        .records [{ Location := "Travis County", DataType := "tax",
                    Values := [("tax_rate", "1.9%")], Source := "tax_policies_2023.pdf" }] := by
  refine ⟨by decide, by decide, by decide, by decide⟩

/-! ## Cursor and memory -/

theorem runCalls_append (lower : Char → Char) (st : Session) (calls : List Call) (c : Call) :
    runCalls lower st (calls ++ [c]) =
      (FindRelevantInfo lower c.seed c.now (runCalls lower st calls) c.query c.records).2 := by
  induction calls generalizing st with
  | nil => rfl
  | cons d calls ih => simp only [List.cons_append, runCalls, List.append_eq, ih]

theorem Consistent.mono {P Q : String → Prop} {st : Session} (h : Consistent P st)
    (hPQ : ∀ x, P x → Q x) : Consistent Q st := by
  rcases h with h | ⟨h1, h2, h3⟩
  · exact Or.inl h
  · exact Or.inr ⟨h1, hPQ _ h2, h3⟩

/-- One call keeps cursor and memory in agreement; a new cursor value is a
location of the store of that call. -/
theorem FindRelevantInfo_consistent (lower : Char → Char) (seed : List Nat) (now : Nat)
    (st : Session) (query : String) (records : List Record) (P : String → Prop)
    (hcap : 0 < st.memorySize) (h : Consistent P st) :
    Consistent (fun x => P x ∨ ∃ r ∈ records, r.Location = x)
      (FindRelevantInfo lower seed now st query records).2 := by
  cases hres : resolution lower st query records with
  | none =>
    rw [FindRelevantInfo_session, hres]
    exact h.mono (fun x hx => Or.inl hx)
  | some p =>
    obtain ⟨L, question⟩ := p
    obtain ⟨_, hL, hne, _⟩ := resolution_some lower st query records L question hres
    have hmem : ∃ r ∈ records, r.Location = L := by
      have := findLocation_mem lower _ records (by rw [hL]; exact hne)
      rw [hL] at this
      exact this
    have hlast : (FindRelevantInfo lower seed now st query records).2.lastLocation = L := by
      rw [FindRelevantInfo_session, hres]
      simp [addInteraction_lastLocation]
    have hint : (FindRelevantInfo lower seed now st query records).2.interactions =
        ({ Location := L, Question := question, Timestamp := now } : Interaction) ::
          st.interactions.take (st.memorySize - 1) := by
      rw [FindRelevantInfo_interactions, hres]
      obtain ⟨m, hm⟩ : ∃ m, st.memorySize = m + 1 := ⟨st.memorySize - 1, by omega⟩
      simp only [hm, List.take_succ_cons, Nat.add_sub_cancel]
    refine Or.inr ⟨?_, ?_, ?_⟩
    · rw [hlast]
      exact hne
    · rw [hlast]
      exact Or.inr hmem
    · exact ⟨_, _, hint, by rw [hlast]⟩

theorem runCalls_consistent (lower : Char → Char) (memorySize : Nat) (hcap : 0 < memorySize)
    (calls : List Call) :
    Consistent (fun x => ∃ c ∈ calls, ∃ r ∈ c.records, r.Location = x)
      (runCalls lower (initSession memorySize) calls) := by
  induction calls using List.reverseRecOn with
  | nil => exact Or.inl ⟨rfl, rfl⟩
  | append_singleton calls c ih =>
    rw [runCalls_append]
    have hm : 0 < (runCalls lower (initSession memorySize) calls).memorySize := by
      rw [runCalls_memorySize]
      exact hcap
    have := FindRelevantInfo_consistent lower c.seed c.now _ c.query c.records _ hm ih
    apply this.mono
    rintro x (⟨d, hd, r, hr, hx⟩ | ⟨r, hr, hx⟩)
    · exact ⟨d, List.mem_append_left _ hd, r, hr, hx⟩
    · exact ⟨c, List.mem_append_right _ (List.mem_singleton_self c), r, hr, hx⟩

/-- C23 (cursor/memory consistency).  In every state reached from process start
(`lastLocation = ""`, empty memory, `memorySize ≥ 1`) by a sequence of
`FindRelevantInfo` calls over any stores, `lastLocation` is empty exactly when
the memory is empty, and when the memory is non-empty `lastLocation` is the
location of its newest interaction, is not empty and is the `Location` of a
record of the store of one of the calls made. -/
theorem cursor_memory_consistent (lower : Char → Char) (memorySize : Nat)
    (hcap : 0 < memorySize) (calls : List Call) :
    ((runCalls lower (initSession memorySize) calls).lastLocation = "" ↔
        (runCalls lower (initSession memorySize) calls).interactions = []) ∧
      ∀ newest older,
        (runCalls lower (initSession memorySize) calls).interactions = newest :: older →
        (runCalls lower (initSession memorySize) calls).lastLocation = newest.Location ∧
        (runCalls lower (initSession memorySize) calls).lastLocation ≠ "" ∧
        ∃ c ∈ calls, ∃ r ∈ c.records,
          r.Location = (runCalls lower (initSession memorySize) calls).lastLocation := by
  rcases runCalls_consistent lower memorySize hcap calls with ⟨h1, h2⟩ | ⟨h1, h2, i, rest, h3, h4⟩
  · refine ⟨⟨fun _ => h2, fun _ => h1⟩, ?_⟩
    intro newest older h
    rw [h2] at h
    exact absurd h (by simp)
  · refine ⟨⟨fun h => absurd h h1, fun h => ?_⟩, ?_⟩
    · rw [h3] at h
      exact absurd h (by simp)
    · intro newest older h
      rw [h3] at h
      obtain ⟨e, _⟩ := List.cons.inj h
      subst e
      exact ⟨h4.symm, h1, h2⟩

set_option maxRecDepth 100000 in
/-- Witness for C23: the state after the three resolving calls of `overflowCalls`. -/
theorem cursor_memory_consistent_witness :
    (0 < 2) ∧
      (runCalls asciiLower (initSession 2) overflowCalls).lastLocation = "Travis Heights" ∧
      (((runCalls asciiLower (initSession 2) overflowCalls).lastLocation = "" ↔
          (runCalls asciiLower (initSession 2) overflowCalls).interactions = []) ∧
        ∀ newest older,
          (runCalls asciiLower (initSession 2) overflowCalls).interactions = newest :: older →
          (runCalls asciiLower (initSession 2) overflowCalls).lastLocation = newest.Location ∧
          (runCalls asciiLower (initSession 2) overflowCalls).lastLocation ≠ "" ∧
          ∃ c ∈ overflowCalls, ∃ r ∈ c.records,
            r.Location = (runCalls asciiLower (initSession 2) overflowCalls).lastLocation) :=
  ⟨by decide, by decide, cursor_memory_consistent asciiLower 2 (by decide) overflowCalls⟩


/-! ## Malformed and insufficient sources -/

/-- A source with fewer than two rows is rejected with the fixed message. -/
theorem LoadData_short (files : String → Source) (filePath dataType : String)
    (records : List (List String)) (hpath : validateFilePath filePath = none)
    (hfile : files filePath = .rows records) (hlen : records.length < 2) :
    LoadData files filePath dataType = .error "CSV file is empty or missing data rows" := by
  simp [LoadData, hpath, hfile, hlen]

/-- A file with a row whose field count differs from the header's makes the
reader fail at the first such row. -/
theorem readAll_mismatch (first : Nat × List String) (rest : List (Nat × List String))
    (h : ∃ r ∈ rest, r.2.length ≠ first.2.length) :
    ∃ r ∈ rest, r.2.length ≠ first.2.length ∧
      readAll (first :: rest) =
        .readError ("record on line " ++ toString r.1 ++ ": wrong number of fields") := by
  cases hf : rest.find? (fun r => r.2.length != first.2.length) with
  | none =>
    obtain ⟨r, hr, hne⟩ := h
    have := List.find?_eq_none.mp hf r hr
    simp only [bne_iff_ne, ne_eq, Decidable.not_not] at this
    exact absurd this hne
  | some r =>
    refine ⟨r, List.mem_of_find?_eq_some hf, ?_, by simp only [readAll, hf]⟩
    have := List.find?_some hf
    simpa using this

/-- Such a file is rejected by `LoadData` with the error of the reader. -/
theorem LoadData_mismatch (files : String → Source) (filePath dataType : String)
    (first : Nat × List String) (rest : List (Nat × List String))
    (hpath : validateFilePath filePath = none)
    (hfile : files filePath = readAll (first :: rest))
    (h : ∃ r ∈ rest, r.2.length ≠ first.2.length) :
    ∃ r ∈ rest, r.2.length ≠ first.2.length ∧
      LoadData files filePath dataType =
        .error ("error reading CSV: " ++
          ("record on line " ++ toString r.1 ++ ": wrong number of fields")) := by
  obtain ⟨r, hr, hne, hread⟩ := readAll_mismatch first rest h
  refine ⟨r, hr, hne, ?_⟩
  rw [hread] at hfile
  simp only [LoadData, hpath, hfile]

set_option maxRecDepth 100000 in
/-- C21 (malformed or insufficient sources), failing input.  The file of
"Invalid Format", whose data row on line 2 has two fields under a header of
three, is rejected, but with the message
"error reading CSV: record on line 2: wrong number of fields", which does not
contain the text "invalid data at row 2: record on line 2: wrong number of
fields" that the test asserts.  The empty file and the header-only file are
rejected with "CSV file is empty or missing data rows". -/
theorem field_count_message_differs :
    LoadData (fun _ => readAll invalidFormatParsed) "data/test/Invalid Format.csv" "tax" =
        .error "error reading CSV: record on line 2: wrong number of fields" ∧
      Contains "error reading CSV: record on line 2: wrong number of fields"
        "invalid data at row 2: record on line 2: wrong number of fields" = false ∧
      LoadData (fun _ => readAll []) "data/test/Empty File.csv" "tax" =
        .error "CSV file is empty or missing data rows" ∧
      LoadData (fun _ => readAll [(1, ["location", "tax_rate", "source"])])
        "data/test/Empty CSV.csv" "tax" = .error "CSV file is empty or missing data rows" := by
  refine ⟨by decide, by decide, by decide, by decide⟩


/-! ## Loading a valid source -/

theorem valueOf_cons_self (h f : String) (values : List (String × String)) :
    valueOf ((h, f) :: values) h = f := by
  simp [valueOf, List.lookup]

theorem valueOf_cons_ne (k h f : String) (values : List (String × String)) (hne : k ≠ h) :
    valueOf ((h, f) :: values) k = valueOf values k := by
  have : (k == h) = false := by simpa using hne
  simp [valueOf, List.lookup, this]

/-- Columns whose header is not `k` leave the value read at `k` as it was. -/
theorem buildValues_valueOf_other (headers row : List String) (values : List (String × String))
    (k : String) (hk : ¬ k ∈ headers) :
    valueOf (buildValues headers row values) k = valueOf values k := by
  induction headers generalizing row values with
  | nil => simp [buildValues]
  | cons h hs ih =>
    have hkh : k ≠ h := fun e => hk (by simp [e])
    have hks : ¬ k ∈ hs := fun e => hk (List.mem_cons_of_mem _ e)
    cases row with
    | nil => simp [buildValues]
    | cons f fs =>
      unfold buildValues
      split
      · rw [ih _ _ hks, valueOf_cons_ne k h f values hkh]
      · exact ih _ _ hks

/-- The value read at a header is the field of the last column that bears it. -/
theorem buildValues_valueOf (hpre hpost fpre fpost : List String) (h f : String)
    (values : List (String × String)) (hlen : hpre.length = fpre.length)
    (h1 : h ≠ "location") (h2 : h ≠ "source") (hlast : ¬ h ∈ hpost) :
    valueOf (buildValues (hpre ++ h :: hpost) (fpre ++ f :: fpost) values) h = f := by
  induction hpre generalizing fpre values with
  | nil =>
    cases fpre with
    | nil =>
      simp only [List.nil_append, buildValues, h1, h2, ne_eq, not_false_eq_true, and_self, if_true]
      rw [buildValues_valueOf_other _ _ _ _ hlast, valueOf_cons_self]
    | cons g gs => simp at hlen
  | cons x xs ih =>
    cases fpre with
    | nil => simp at hlen
    | cons g gs =>
      have hl : xs.length = gs.length := by simpa using hlen
      simp only [List.cons_append, buildValues]
      split
      · exact ih gs _ hl
      · exact ih gs _ hl

/-- The keys bound by the column loop are the headers other than "location" and "source". -/
theorem buildValues_keys (headers row : List String) (values : List (String × String))
    (hlen : headers.length = row.length) (k : String) :
    k ∈ (buildValues headers row values).map Prod.fst ↔
      (k ∈ headers ∧ k ≠ "location" ∧ k ≠ "source") ∨ k ∈ values.map Prod.fst := by
  induction headers generalizing row values with
  | nil => simp [buildValues]
  | cons h hs ih =>
    cases row with
    | nil => simp at hlen
    | cons f fs =>
      have hl : hs.length = fs.length := by simpa using hlen
      unfold buildValues
      split
      · rename_i hh
        rw [ih fs _ hl]
        simp only [List.map_cons, List.mem_cons]
        constructor
        · rintro (⟨a, b⟩ | rfl | c)
          · exact Or.inl ⟨Or.inr a, b⟩
          · exact Or.inl ⟨Or.inl rfl, hh⟩
          · exact Or.inr c
        · rintro (⟨rfl | a, b⟩ | c)
          · exact Or.inr (Or.inl rfl)
          · exact Or.inl ⟨a, b⟩
          · exact Or.inr (Or.inr c)
      · rename_i hh
        rw [ih fs _ hl]
        simp only [List.mem_cons]
        constructor
        · rintro (⟨a, b⟩ | c)
          · exact Or.inl ⟨Or.inr a, b⟩
          · exact Or.inr c
        · rintro (⟨rfl | a, b⟩ | c)
          · exact absurd b hh
          · exact Or.inl ⟨a, b⟩
          · exact Or.inr c

/-- The record appended for a non-empty row with the header's field count. -/
theorem rowRecord_loaded (dataType : String) (headers row : List String) (hne : row ≠ [])
    (hlen : row.length = headers.length) :
    LoadedFrom dataType headers row (rowRecord dataType headers row) := by
  cases row with
  | nil => exact absurd rfl hne
  | cons f fs =>
    have hl : ∃ l, (f :: fs).getLast? = some l := by
      cases h : (f :: fs).getLast? with
      | none => simp at h
      | some l => exact ⟨l, rfl⟩
    obtain ⟨l, hl⟩ := hl
    refine ⟨by simp [rowRecord], by simp [rowRecord, hl], rfl, ?_, ?_⟩
    · intro k
      have := buildValues_keys headers (f :: fs) [] hlen.symm k
      simpa [rowRecord] using this
    · intro hpre hpost fpre fpost h g hh hr hlen2 h1 h2 hlast
      simp only [rowRecord]
      rw [hh, hr]
      exact buildValues_valueOf hpre hpost fpre fpost h g [] hlen2 h1 h2 hlast

/-- The row loop over valid, non-empty rows appends one record per row, in row order. -/
theorem loadRows_valid (dataType : String) (headers : List String)
    (rows : List (List String)) (i : Nat) (result : List Record)
    (h : ∀ r ∈ rows, r ≠ [] ∧ validateRecord r = none) :
    loadRows dataType headers rows i result =
      .records (result ++ rows.map (rowRecord dataType headers)) := by
  induction rows generalizing i result with
  | nil => simp [loadRows]
  | cons r rest ih =>
    obtain ⟨hne, hv⟩ := h r (List.mem_cons_self _ _)
    cases r with
    | nil => exact absurd rfl hne
    | cons f fs =>
      have hl : ∃ l, (f :: fs).getLast? = some l := by
        cases h : (f :: fs).getLast? with
        | none => simp at h
        | some l => exact ⟨l, rfl⟩
      obtain ⟨l, hl⟩ := hl
      rw [loadRows]
      simp only [hv, List.head?_cons, hl]
      rw [ih _ _ (fun x hx => h x (List.mem_cons_of_mem _ hx))]
      simp [rowRecord, hl]


theorem rows_loadedFrom (dataType : String) (headers : List String)
    (rows : List (List String))
    (h : ∀ r ∈ rows, r ≠ [] ∧ r.length = headers.length) :
    List.Forall₂ (LoadedFrom dataType headers) rows (rows.map (rowRecord dataType headers)) := by
  induction rows with
  | nil => exact List.Forall₂.nil
  | cons r rest ih =>
    obtain ⟨hne, hlen⟩ := h r (List.mem_cons_self _ _)
    exact List.Forall₂.cons (rowRecord_loaded dataType headers r hne hlen)
      (ih (fun x hx => h x (List.mem_cons_of_mem _ hx)))

/-- C22 (loading a valid source), as amended.  For a source accepted by the
path check and parsed into a non-empty header row and `n ≥ 1` data rows that
all have the header's field count and pass `validateRecord`, `LoadData`
returns, with no error, `n` records in row order; the record of a row has
`Location` = the row's first field, `Source` = its last field, `DataType` = the
given tag, and `Values` has as keys the headers other than "location" and
"source", each read as the field of the last column that bears that header
(the column of the header, when the header name occurs once). -/
theorem load_valid_source (files : String → Source) (filePath dataType : String)
    (headers row : List String) (rows : List (List String))
    (hpath : validateFilePath filePath = none)
    (hfile : files filePath = .rows (headers :: row :: rows))
    (hheader : headers ≠ [])
    (hcount : ∀ r ∈ row :: rows, r.length = headers.length)
    (hvalid : ∀ r ∈ row :: rows, validateRecord r = none) :
    ∃ result : List Record,
      LoadData files filePath dataType = .records result ∧
      result.length = (row :: rows).length ∧
      List.Forall₂ (LoadedFrom dataType headers) (row :: rows) result := by
  have hne : ∀ r ∈ row :: rows, r ≠ [] := by
    intro r hr e
    have := hcount r hr
    rw [e] at this
    exact hheader (List.length_eq_zero.mp this.symm)
  refine ⟨(row :: rows).map (rowRecord dataType headers), ?_, by simp, ?_⟩
  · rw [LoadData_rows files filePath dataType headers row rows hpath hfile,
      loadRows_valid dataType headers (row :: rows) 1 []
        (fun r hr => ⟨hne r hr, hvalid r hr⟩)]
    simp
  · exact rows_loadedFrom dataType headers (row :: rows)
      (fun r hr => ⟨hne r hr, hcount r hr⟩)

set_option maxRecDepth 100000 in
/-- Witness for C22: the rows of `TestLoadDataWithSpecialCharacters`; the commas
and the non-ASCII text of the fields are kept as they are. -/
theorem load_valid_source_witness :
    LoadData (filesWith specialRows) "data/test/special_chars.csv" "tax" =
        .records
          [{ Location := "Travis County, TX", DataType := "tax",
             Values := [("tax_rate", "1.9%")], Source := "tax_policies_2023.pdf" },
           { Location := "São Paulo, BR", DataType := "tax",
             Values := [("tax_rate", "2,1%")], Source := "tax_records_2023.csv" }] ∧
      ∃ result : List Record,
        LoadData (filesWith specialRows) "data/test/special_chars.csv" "tax" =
          .records result ∧
        result.length = 2 ∧
        List.Forall₂ (LoadedFrom "tax" ["location", "tax_rate", "source"])
          [["Travis County, TX", "1.9%", "tax_policies_2023.pdf"],
           ["São Paulo, BR", "2,1%", "tax_records_2023.csv"]] result :=
  ⟨by decide,
   load_valid_source (filesWith specialRows) "data/test/special_chars.csv" "tax"
    ["location", "tax_rate", "source"] ["Travis County, TX", "1.9%", "tax_policies_2023.pdf"]
    [["São Paulo, BR", "2,1%", "tax_records_2023.csv"]] (by decide) rfl (by simp)
    (by
      intro r hr
      simp only [List.mem_cons, List.mem_singleton, List.not_mem_nil, or_false] at hr
      rcases hr with rfl | rfl <;> rfl)
    (by
      intro r hr
      simp only [List.mem_cons, List.mem_singleton, List.not_mem_nil, or_false] at hr
      rcases hr with rfl | rfl <;> decide)⟩

set_option maxRecDepth 100000 in
/-- Counterexample to C22 as stated: with a header that names two columns
"tax_rate", the valid row is loaded, but `Values` read at "tax_rate", the header
of the second column, gives "2.1%", the field of the third column, not "1.9%",
the field of the second column. -/
theorem duplicate_header_last_wins :
    (∀ r ∈ duplicateHeaderRows, r.length = 4 ∧ validateRecord r = none) ∧
      validateFilePath "data/test/duplicate.csv" = none ∧
      (["location", "tax_rate", "tax_rate", "source"] : List String)[1]? = some "tax_rate" ∧
      (["Travis County", "1.9%", "2.1%", "tax_policies_2023.pdf"] : List String)[1]? =
        some "1.9%" ∧
      ∃ r : Record,
        LoadData (filesWith duplicateHeaderRows) "data/test/duplicate.csv" "tax" =
          .records [r] ∧
        valueOf r.Values "tax_rate" = "2.1%" ∧ valueOf r.Values "tax_rate" ≠ "1.9%" := by
  refine ⟨by decide, by decide, by decide, by decide,
    ⟨rowRecord "tax" ["location", "tax_rate", "tax_rate", "source"]
      ["Travis County", "1.9%", "2.1%", "tax_policies_2023.pdf"], by decide, by decide,
      by decide⟩⟩


end GoRagAgent
